import Mathlib

/-!
Verification of the FAT16 FUSE driver (fat16_fuse.c).

The driver works over a memory-mapped disk image.  We embed the parts of
the image the handlers touch:

* the superblock fields the handlers read (`total_clusters`, `cluster_size`);
* the FAT, a flat array of 16-bit entries, modelled as a total function
  `Nat → Nat` (values are stored mod 2^16 by the writers; reads outside the
  real `[0, total_clusters)` range — which in C read adjacent bytes of the
  mapping, or crash — are modelled by whatever the function returns there;
  in states built by `formatImage` those entries are 0);
* the root directory block, one cluster of bytes (`rootDir : Nat → Nat`);
* the data area, addressed as cluster number × byte offset
  (`data : Nat → Nat → Nat`); the C address `data_area + (c-2)*cluster_size + i`
  for `2 ≤ c` and `i < cluster_size` corresponds to `data c i`.  Accesses the
  C code makes outside that range (possible only on corrupted or
  out-of-space images, where the C program reads/writes out of bounds) fall
  onto `data c i` for out-of-range `c`; this modelling choice is recorded
  where it matters.

Directory entries are 32-byte packed records inside a directory block:
name 0–7, ext 8–10, attributes 11, reserved 12–21, time 22–23, date 24–25,
first_cluster 26–27 (little endian), file_size 28–31 (little endian).
All multi-byte fields are read and written byte-wise, exactly as the packed
C struct lays them out.

Loops of the C source that are not structurally bounded are modelled with
explicit fuel and return `Option`; `none` means the fuel ran out.  Fuel
amounts are chosen so that exhaustion coincides with genuine divergence or
unbounded runs of the C loop (each site documents its bound).
-/

namespace Fat16

/-- FAT sentinel: free cluster. -/
def FAT_ENTRY_FREE : Nat := 0x0000

/-- FAT sentinel: end of chain. -/
def FAT_ENTRY_EOF : Nat := 0xFFFF

/-- Attribute bit: directory. -/
def ATTR_DIRECTORY : Nat := 0x10

/-- Attribute bit: archive (regular file). -/
def ATTR_ARCHIVE : Nat := 0x20

/-- The superblock fields the handlers use (`fs_metadata`). -/
structure Meta where
  total_clusters : Nat
  cluster_size : Nat
deriving DecidableEq

/-- The filesystem state: the typed views into the mapped image. -/
structure FSState where
  meta : Meta
  fat : Nat → Nat
  rootDir : Nat → Nat
  data : Nat → Nat → Nat

/-- Point update of a byte map. -/
def upd (f : Nat → Nat) (i v : Nat) : Nat → Nat :=
  fun j => if j = i then v else f j

/-- A directory block is either the root block or a data cluster
(`get_dir_from_cluster` maps cluster 0 to the root block). -/
inductive DirLoc
  | root
  | cluster (c : Nat)
deriving DecidableEq

/-- `get_dir_from_cluster`. -/
def getDirFromCluster (c : Nat) : DirLoc :=
  if c = 0 then .root else .cluster c

/-- Read one byte of a directory block. -/
def dirByte (s : FSState) : DirLoc → Nat → Nat
  | .root, i => s.rootDir i
  | .cluster c, i => s.data c i

/-- Write one byte of a directory block. -/
def setDirByte (s : FSState) : DirLoc → Nat → Nat → FSState
  | .root, i, v => { s with rootDir := upd s.rootDir i v }
  | .cluster c, i, v =>
      { s with data := fun c2 => if c2 = c then upd (s.data c) i v else s.data c2 }

/-- Byte `off` of the 32-byte entry in slot `slot`. -/
def entryByte (s : FSState) (loc : DirLoc) (slot off : Nat) : Nat :=
  dirByte s loc (32 * slot + off)

/-- Write byte `off` of the entry in slot `slot`. -/
def setEntryByte (s : FSState) (loc : DirLoc) (slot off v : Nat) : FSState :=
  setDirByte s loc (32 * slot + off) v

/-- The `attributes` field. -/
def entryAttrs (s : FSState) (loc : DirLoc) (slot : Nat) : Nat :=
  entryByte s loc slot 11

/-- The `first_cluster` field (little-endian u16 at bytes 26–27). -/
def entryFirstCluster (s : FSState) (loc : DirLoc) (slot : Nat) : Nat :=
  entryByte s loc slot 26 + 256 * entryByte s loc slot 27

/-- The `file_size` field (little-endian u32 at bytes 28–31). -/
def entryFileSize (s : FSState) (loc : DirLoc) (slot : Nat) : Nat :=
  entryByte s loc slot 28 + 256 * entryByte s loc slot 29 +
    65536 * entryByte s loc slot 30 + 16777216 * entryByte s loc slot 31

/-- Store a u16 into `first_cluster` (the C assignment truncates mod 2^16). -/
def setEntryFirstCluster (s : FSState) (loc : DirLoc) (slot v : Nat) : FSState :=
  let v := v % 65536
  setEntryByte (setEntryByte s loc slot 26 (v % 256)) loc slot 27 (v / 256)

/-- Store a u32 into `file_size` (the C assignment truncates mod 2^32). -/
def setEntryFileSize (s : FSState) (loc : DirLoc) (slot v : Nat) : FSState :=
  let v := v % 4294967296
  setEntryByte (setEntryByte (setEntryByte (setEntryByte s loc slot 28 (v % 256))
    loc slot 29 (v / 256 % 256)) loc slot 30 (v / 65536 % 256)) loc slot 31 (v / 16777216)

/-- Write a run of bytes of an entry, starting at byte `off`. -/
def setEntryBytes (s : FSState) (loc : DirLoc) (slot : Nat) : Nat → List Nat → FSState
  | _, [] => s
  | off, b :: rest => setEntryBytes (setEntryByte s loc slot off b) loc slot (off + 1) rest

/-- `memset(entry, 0, sizeof(fat16_dir_entry))`. -/
def zeroEntry (s : FSState) (loc : DirLoc) (slot : Nat) : FSState :=
  setEntryBytes s loc slot 0 (List.replicate 32 0)

/-- `memset` of the first `n` bytes of data cluster `c` to zero. -/
def zeroClusterBytes (s : FSState) (c n : Nat) : FSState :=
  { s with data := fun c2 => if c2 = c then (fun i => if i < n then 0 else s.data c i)
                             else s.data c2 }

/-- ASCII `toupper` as used on single bytes. -/
def toupperB (c : Nat) : Nat := if 97 ≤ c ∧ c ≤ 122 then c - 32 else c

/-- Bytes of an ASCII path string (paths and names are modelled as byte lists). -/
def strBytes (s : String) : List Nat := s.data.map Char.toNat

/-- The bytes a C string read stops at: everything before the first NUL. -/
def cstr (l : List Nat) : List Nat := l.takeWhile (fun c => c ≠ 0)

/-- The stem-filling loop of `to_fat_name`: copies uppercased bytes into the
8-byte name buffer until a NUL, a dot, or 8 characters. -/
def stemLoop : List Nat → Nat → List Nat → List Nat
  | [], _, buf => buf
  | c :: rest, i, buf =>
    if c = 0 ∨ c = 46 ∨ 8 ≤ i then buf
    else stemLoop rest (i + 1) (buf.set i (toupperB c))

/-- The extension-filling loop of `to_fat_name`: copies uppercased bytes into
the 3-byte ext buffer until a NUL or 3 characters. -/
def extLoop : List Nat → Nat → List Nat → List Nat
  | [], _, buf => buf
  | c :: rest, i, buf =>
    if c = 0 ∨ 3 ≤ i then buf
    else extLoop rest (i + 1) (buf.set i (toupperB c))

/-- `strrchr(path, ch)` position: index of the last occurrence, if any. -/
def lastIdxOf (l : List Nat) (v : Nat) : Option Nat :=
  ((List.range l.length).filter (fun i => l.getD i 0 = v)).getLast?

/-- `to_fat_name`: encode a source name into the space-padded 8-byte name and
3-byte extension buffers.  The stem loop stops at the FIRST dot; the
extension is taken after the LAST dot (`strrchr`) when the byte after that
dot is not NUL. -/
def to_fat_name (path : List Nat) : List Nat × List Nat :=
  let p := cstr path
  let fatName := stemLoop p 0 (List.replicate 8 32)
  let fatExt :=
    match lastIdxOf p 46 with
    | none => List.replicate 3 32
    | some d =>
      let suffix := p.drop (d + 1)
      if suffix ≠ [] then extLoop suffix 0 (List.replicate 3 32)
      else List.replicate 3 32
  (fatName, fatExt)

/-- Number of directory slots in one directory block. -/
def entriesPerDir (s : FSState) : Nat := s.meta.cluster_size / 32

/-- The 8 name bytes of an entry. -/
def entryNameBytes (s : FSState) (loc : DirLoc) (slot : Nat) : List Nat :=
  (List.range 8).map (fun j => entryByte s loc slot j)

/-- The 3 extension bytes of an entry. -/
def entryExtBytes (s : FSState) (loc : DirLoc) (slot : Nat) : List Nat :=
  (List.range 3).map (fun j => entryByte s loc slot (8 + j))

/-- An entry is live when its first name byte is neither 0x00 nor 0xE5. -/
def entryLive (s : FSState) (loc : DirLoc) (slot : Nat) : Bool :=
  entryByte s loc slot 0 != 0 && entryByte s loc slot 0 != 0xE5

/-- The requested 8.3 name/ext used by `find_entry_in_dir`: literal forms for
the dot and dot-dot names, `to_fat_name` otherwise. -/
def reqName83 (name : List Nat) : List Nat × List Nat :=
  if name = [46] then ([46, 32, 32, 32, 32, 32, 32, 32], [32, 32, 32])
  else if name = [46, 46] then ([46, 46, 32, 32, 32, 32, 32, 32], [32, 32, 32])
  else to_fat_name name

/-- `find_entry_in_dir`: first live slot whose name and ext bytes equal the
requested 8.3 form. -/
def find_entry_in_dir (s : FSState) (loc : DirLoc) (name : List Nat) : Option Nat :=
  let rq := reqName83 name
  (List.range (entriesPerDir s)).find? (fun i =>
    entryLive s loc i && entryNameBytes s loc i == rq.1 && entryExtBytes s loc i == rq.2)

/-- `find_free_dir_entry`: first slot whose first name byte is 0x00 or 0xE5. -/
def find_free_dir_entry (s : FSState) (loc : DirLoc) : Option Nat :=
  (List.range (entriesPerDir s)).find? (fun i =>
    entryByte s loc i 0 == 0 || entryByte s loc i 0 == 0xE5)

/-- `find_free_cluster`: linear scan of FAT indices `2 … total_clusters - 1`
for the first FREE entry; 0 when none is free. -/
def find_free_cluster (s : FSState) : Nat :=
  match (List.range' 2 (s.meta.total_clusters - 2)).find? (fun i => s.fat i == 0) with
  | some i => i
  | none => 0

/-- `strtok(path, "/")` tokenisation: the nonempty components. -/
def splitBytes : List Nat → List Nat → List (List Nat)
  | [], acc => if acc = [] then [] else [acc.reverse]
  | c :: rest, acc =>
    if c = 47 then (if acc = [] then splitBytes rest [] else acc.reverse :: splitBytes rest [])
    else splitBytes rest (c :: acc)

/-- Result of `find_path_entry`: the root-path special case, a found entry
(parent block and slot), or an error together with the value left in the
`parent_dir_data` out-parameter. -/
inductive PathResult
  | rootTarget
  | found (parent : DirLoc) (slot : Nat)
  | fail (errno : Nat) (parentAtFailure : DirLoc)
deriving DecidableEq

/-- The component-walking loop of `find_path_entry`.  Besides the result it
returns the list of directory blocks in which `find_entry_in_dir` was
called (used to state framing lemmas). -/
def resolveFrom (s : FSState) : DirLoc → List Nat → List (List Nat) → PathResult × List DirLoc
  | cur, t, ts =>
    match find_entry_in_dir s cur t with
    | none => (.fail 2 cur, [cur])
    | some slot =>
      match ts with
      | [] => (.found cur slot, [cur])
      | t2 :: ts2 =>
        if entryAttrs s cur slot &&& ATTR_DIRECTORY = 0 then (.fail 20 cur, [cur])
        else
          let r := resolveFrom s (getDirFromCluster (entryFirstCluster s cur slot)) t2 ts2
          (r.1, cur :: r.2)

/-- `find_path_entry`.  The C function copies the path into a 1024-byte buffer
(truncating to 1023 bytes) before tokenising; reads stop at the first NUL. -/
def find_path_entry (s : FSState) (path : List Nat) : PathResult × List DirLoc :=
  let p := cstr path
  if p = [47] then (.rootTarget, [])
  else
    match splitBytes (p.take 1023) [] with
    | [] => (.fail 2 .root, [])
    | t :: ts => resolveFrom s .root t ts

/-- Shared resolution prologue of the handlers: `find_path_entry`, with the
root path standing for entry 0 of the root block (the C code returns the
root block pointer as the target entry pointer). -/
def resolveTarget (s : FSState) (path : List Nat) : Except Nat (DirLoc × Nat) :=
  match (find_path_entry s path).1 with
  | .rootTarget => .ok (.root, 0)
  | .found p i => .ok (p, i)
  | .fail e _ => .error e

/-- `basename = strrchr(path, '/') ? strrchr(path, '/') + 1 : path` as used by
`fat_create`. -/
def basenameOf (path : List Nat) : List Nat :=
  match lastIdxOf path 47 with
  | none => path
  | some i => path.drop (i + 1)

/-- `fat_create`.  Resolves the full path; EEXIST when it resolves; any error
other than ENOENT propagates; on ENOENT a fresh entry (ARCHIVE attribute,
EOF-sentinel first cluster, size 0) is written into a free slot of the
block left in `parent_dir_data` by the failed resolution. -/
def fat_create (s : FSState) (path : List Nat) : Int × FSState :=
  let p := cstr path
  match (find_path_entry s p).1 with
  | .rootTarget => (-17, s)
  | .found _ _ => (-17, s)
  | .fail e par =>
    if e ≠ 2 then (-(e : Int), s)
    else
      match find_free_dir_entry s par with
      | none => (-28, s)
      | some slot =>
        let s1 := zeroEntry s par slot
        let nm := to_fat_name (basenameOf p)
        let s2 := setEntryBytes s1 par slot 0 nm.1
        let s3 := setEntryBytes s2 par slot 8 nm.2
        let s4 := setEntryByte s3 par slot 11 ATTR_ARCHIVE
        let s5 := setEntryFirstCluster s4 par slot FAT_ENTRY_EOF
        let s6 := setEntryFileSize s5 par slot 0
        (0, s6)

/-- `fat_mkdir`. -/
def fat_mkdir (s : FSState) (path : List Nat) : Int × FSState :=
  let p := cstr path
  match lastIdxOf p 47 with
  | none => (-22, s)
  | some li =>
    if li = 0 ∧ p.length = 1 then (-22, s)
    else
      let base := p.drop (li + 1)
      if base.length = 0 then (-22, s)
      else
        match (find_path_entry s p).1 with
        | .rootTarget => (-17, s)
        | .found _ _ => (-17, s)
        | .fail _ _ =>
          let parentBytes := if li = 0 then [47] else p.take li
          let parentInfo : Except Int (DirLoc × Nat) :=
            if parentBytes = [47] then .ok (.root, 0)
            else
              match resolveTarget s parentBytes with
              | .error _ => .error (-2)
              | .ok (ploc, pslot) =>
                if entryAttrs s ploc pslot &&& ATTR_DIRECTORY = 0 then .error (-20)
                else
                  let pc := entryFirstCluster s ploc pslot
                  .ok (getDirFromCluster pc, pc)
          match parentInfo with
          | .error e => (e, s)
          | .ok (parentLoc, parentCluster) =>
            match find_free_dir_entry s parentLoc with
            | none => (-28, s)
            | some slot =>
              let nc := find_free_cluster s
              if nc = 0 then (-28, s)
              else
                let s1 := { s with fat := upd s.fat nc FAT_ENTRY_EOF }
                let s2 := zeroEntry s1 parentLoc slot
                let nm := to_fat_name base
                let s3 := setEntryBytes s2 parentLoc slot 0 nm.1
                let s4 := setEntryBytes s3 parentLoc slot 8 nm.2
                let s5 := setEntryByte s4 parentLoc slot 11 ATTR_DIRECTORY
                let s6 := setEntryFirstCluster s5 parentLoc slot nc
                let newLoc := getDirFromCluster nc
                let s7 := zeroClusterBytes s6 nc 4096
                let s8 := zeroEntry s7 newLoc 0
                let s9 := setEntryBytes s8 newLoc 0 0 (List.replicate 8 32)
                let s10 := setEntryBytes s9 newLoc 0 8 (List.replicate 3 32)
                let s11 := setEntryByte s10 newLoc 0 0 46
                let s12 := setEntryByte s11 newLoc 0 11 ATTR_DIRECTORY
                let s13 := setEntryFirstCluster s12 newLoc 0 nc
                let s14 := zeroEntry s13 newLoc 1
                let s15 := setEntryBytes s14 newLoc 1 0 (List.replicate 8 32)
                let s16 := setEntryBytes s15 newLoc 1 8 (List.replicate 3 32)
                let s17 := setEntryByte s16 newLoc 1 0 46
                let s18 := setEntryByte s17 newLoc 1 1 46
                let s19 := setEntryByte s18 newLoc 1 11 ATTR_DIRECTORY
                let s20 := setEntryFirstCluster s19 newLoc 1 parentCluster
                (0, s20)

/-- The chain-freeing loop of `fat_unlink`: set each visited entry FREE, stop
at a cluster value of 0 or EOF.  Fuel-indexed; the loop always stops within
`2^16 + 2` steps because FAT values are 16-bit and a revisited cluster has
already been set FREE. -/
def freeLoop : Nat → FSState → Nat → Option FSState
  | 0, s, c => if c = 0 ∨ c = FAT_ENTRY_EOF then some s else none
  | f + 1, s, c =>
    if c = 0 ∨ c = FAT_ENTRY_EOF then some s
    else
      let next := s.fat c
      freeLoop f { s with fat := upd s.fat c 0 } next

/-- `fat_unlink`. -/
def fat_unlink (s : FSState) (path : List Nat) : Option (Int × FSState) :=
  match resolveTarget s path with
  | .error e => some (-(e : Int), s)
  | .ok (loc, slot) =>
    if entryAttrs s loc slot &&& ATTR_DIRECTORY ≠ 0 then some (-21, s)
    else
      match freeLoop 65540 s (entryFirstCluster s loc slot) with
      | none => none
      | some s1 => some (0, setEntryByte s1 loc slot 0 0xE5)

/-- `fat_rmdir`. -/
def fat_rmdir (s : FSState) (path : List Nat) : Int × FSState :=
  if cstr path = [47] then (-16, s)
  else
    match resolveTarget s path with
    | .error e => (-(e : Int), s)
    | .ok (loc, slot) =>
      if entryAttrs s loc slot &&& ATTR_DIRECTORY = 0 then (-20, s)
      else
        let dirLoc := getDirFromCluster (entryFirstCluster s loc slot)
        if (List.range' 2 (entriesPerDir s - 2)).any (fun i => entryLive s dirLoc i) then
          (-39, s)
        else
          let c := entryFirstCluster s loc slot
          let s1 := if c ≠ 0 then { s with fat := upd s.fat c 0 } else s
          (0, setEntryByte s1 loc slot 0 0xE5)

/-- Outcome of the cluster-skipping loop of `fat_read`: either the loop hit
EOF/FREE and the call returns 0, or it stopped at cluster `c` with cluster
base offset `co`. -/
inductive SkipRes
  | early
  | atPos (c : Nat) (co : Nat)
deriving DecidableEq

/-- The cluster-skipping loop of `fat_read` (steps the chain while
`co + cluster_size ≤ offset`, returning early on EOF/FREE).  Fuel-indexed;
`offset + 1` fuel suffices whenever `cluster_size ≥ 1`. -/
def readSkipLoop : Nat → FSState → Nat → Nat → Nat → Nat → Option SkipRes
  | 0, _, cs, offset, c, co => if co + cs ≤ offset then none else some (.atPos c co)
  | f + 1, s, cs, offset, c, co =>
    if co + cs ≤ offset then
      if s.fat c = FAT_ENTRY_EOF ∨ s.fat c = FAT_ENTRY_FREE then some .early
      else readSkipLoop f s cs offset (s.fat c) (co + cs)
    else some (.atPos c co)

/-- The per-iteration transfer count of the copy loops: `cluster_size -
offset_in_cluster`, cut down to the bytes still to transfer.  (In C:
`to_read_in_cluster` / `to_write_in_cluster`.) -/
def copyTr (cs size offset br co : Nat) : Nat :=
  if cs - (offset + br - co) > size - br then size - br else cs - (offset + br - co)

/-- The slice of data cluster `c` read by one copy-loop iteration. -/
def readSeg (s : FSState) (c oic tr : Nat) : List Nat :=
  (List.range tr).map (fun k => s.data c (oic + k))

/-- The copy loop of `fat_read`: per iteration, copy the in-cluster slice and
then either finish or follow the chain (breaking at EOF/FREE).  Returns the
bytes read and the final `bytes_read` counter. -/
def readCopyLoop : Nat → FSState → Nat → Nat → Nat → Nat → Nat → Nat → List Nat →
    Option (List Nat × Nat)
  | 0, _, _, size, _, br, _, _, acc => if br < size then none else some (acc, br)
  | f + 1, s, cs, size, offset, br, c, co, acc =>
    if br < size then
      if br + copyTr cs size offset br co < size then
        if s.fat c = FAT_ENTRY_EOF ∨ s.fat c = FAT_ENTRY_FREE then
          some (acc ++ readSeg s c (offset + br - co) (copyTr cs size offset br co),
                br + copyTr cs size offset br co)
        else
          readCopyLoop f s cs size offset (br + copyTr cs size offset br co) (s.fat c) (co + cs)
            (acc ++ readSeg s c (offset + br - co) (copyTr cs size offset br co))
      else some (acc ++ readSeg s c (offset + br - co) (copyTr cs size offset br co),
                 br + copyTr cs size offset br co)
    else some (acc, br)

/-- `fat_read`.  Returns the C return value together with the bytes copied
into the caller's buffer. -/
def fat_read (s : FSState) (path : List Nat) (size offset : Nat) : Option (Int × List Nat) :=
  match resolveTarget s path with
  | .error e => some (-(e : Int), [])
  | .ok (loc, slot) =>
    if entryAttrs s loc slot &&& ATTR_DIRECTORY ≠ 0 then some (-21, [])
    else
      let fsz := entryFileSize s loc slot
      if offset ≥ fsz then some (0, [])
      else
        let size := if offset + size > fsz then fsz - offset else size
        if size = 0 then some (0, [])
        else
          let c := entryFirstCluster s loc slot
          if c = FAT_ENTRY_EOF ∨ c = FAT_ENTRY_FREE then some (0, [])
          else
            let cs := s.meta.cluster_size
            match readSkipLoop (offset + 1) s cs offset c 0 with
            | none => none
            | some .early => some (0, [])
            | some (.atPos c2 co) =>
              match readCopyLoop (size + 1) s cs size offset 0 c2 co [] with
              | none => none
              | some (bytes, br) => some ((br : Int), bytes)

/-- The chain-length count loop of `fat_write` (`while (c != EOF && c != FREE)
{ count++; c = fat[c]; }`).  Fuel-indexed; on a FAT whose 16-bit values form
a cycle the loop never stops, so every fuel is exhausted. -/
def chainCountLoop : Nat → (Nat → Nat) → Nat → Nat → Option Nat
  | 0, _, c, acc => if c = FAT_ENTRY_EOF ∨ c = FAT_ENTRY_FREE then some acc else none
  | f + 1, fat, c, acc =>
    if c = FAT_ENTRY_EOF ∨ c = FAT_ENTRY_FREE then some acc
    else chainCountLoop f fat (fat c) (acc + 1)

/-- The tail-seeking loop of `fat_write` (`while (fat[last] != EOF) last =
fat[last];`).  Fuel-indexed; also unbounded on corrupted chains. -/
def seekLastLoop : Nat → (Nat → Nat) → Nat → Option Nat
  | 0, fat, c => if fat c = FAT_ENTRY_EOF then some c else none
  | f + 1, fat, c => if fat c = FAT_ENTRY_EOF then some c else seekLastLoop f fat (fat c)

/-- The chain-extension loop of `fat_write`: allocate `k` clusters, marking
each EOF and linking it after `last` (or into the entry's `first_cluster`
when `last = 0`); stops early when no free cluster is found. -/
def allocLoop : Nat → FSState → DirLoc → Nat → Nat → FSState
  | 0, s, _, _, _ => s
  | k + 1, s, loc, slot, last =>
    let nc := find_free_cluster s
    if nc = 0 then s
    else
      let s1 := { s with fat := upd s.fat nc FAT_ENTRY_EOF }
      let s2 := if last = 0 then setEntryFirstCluster s1 loc slot nc
                else { s1 with fat := upd s1.fat last nc }
      allocLoop k s2 loc slot nc

/-- The cluster-skipping loop of `fat_write`; unlike the read version it never
checks for EOF/FREE, following whatever the FAT holds. -/
def writeSkipLoop : Nat → FSState → Nat → Nat → Nat → Nat → Option (Nat × Nat)
  | 0, _, cs, offset, c, co => if co + cs ≤ offset then none else some (c, co)
  | f + 1, s, cs, offset, c, co =>
    if co + cs ≤ offset then writeSkipLoop f s cs offset (s.fat c) (co + cs)
    else some (c, co)

/-- `memcpy(cluster_ptr + oic, buf + bw, tr)` into data cluster `c`. -/
def writeSeg (s : FSState) (c oic : Nat) (buf : Nat → Nat) (bw tr : Nat) : FSState :=
  { s with data := fun c2 =>
      if c2 = c then (fun i => if oic ≤ i ∧ i < oic + tr then buf (bw + (i - oic)) % 256
                               else s.data c i)
      else s.data c2 }

/-- The copy loop of `fat_write`. -/
def writeCopyLoop : Nat → FSState → Nat → (Nat → Nat) → Nat → Nat → Nat → Nat → Nat →
    Option (FSState × Nat)
  | 0, s, _, _, size, _, bw, _, _ => if bw < size then none else some (s, bw)
  | f + 1, s, cs, buf, size, offset, bw, c, co =>
    if bw < size then
      if bw + copyTr cs size offset bw co < size then
        if (writeSeg s c (offset + bw - co) buf bw (copyTr cs size offset bw co)).fat c
             = FAT_ENTRY_EOF ∨
           (writeSeg s c (offset + bw - co) buf bw (copyTr cs size offset bw co)).fat c
             = FAT_ENTRY_FREE then
          some (writeSeg s c (offset + bw - co) buf bw (copyTr cs size offset bw co),
                bw + copyTr cs size offset bw co)
        else
          writeCopyLoop f (writeSeg s c (offset + bw - co) buf bw (copyTr cs size offset bw co))
            cs buf size offset (bw + copyTr cs size offset bw co)
            ((writeSeg s c (offset + bw - co) buf bw (copyTr cs size offset bw co)).fat c)
            (co + cs)
      else some (writeSeg s c (offset + bw - co) buf bw (copyTr cs size offset bw co),
                 bw + copyTr cs size offset bw co)
    else some (s, bw)

/-- Unsigned 64-bit subtraction, as performed on `size_t` operands. -/
def sub64 (a b : Nat) : Nat := (a + 18446744073709551616 - b) % 18446744073709551616

/-- `fat_write`.  Returns the C return value and the new state; `none` when an
internal chain walk runs without bound (cycle in the FAT). -/
def fat_write (s : FSState) (path : List Nat) (buf : Nat → Nat) (size offset : Nat) :
    Option (Int × FSState) :=
  match resolveTarget s path with
  | .error e => some (-(e : Int), s)
  | .ok (loc, slot) =>
    if entryAttrs s loc slot &&& ATTR_DIRECTORY ≠ 0 then some (-21, s)
    else if size = 0 then some (0, s)
    else
      let cs := s.meta.cluster_size
      let required_size := offset + size
      let first := entryFirstCluster s loc slot
      match chainCountLoop 65537 s.fat first 0 with
      | none => none
      | some cur_count =>
        let required_clusters := if required_size = 0 then 0 else (required_size + cs - 1) / cs
        let extended : Option FSState :=
          if required_clusters > cur_count then
            if first ≠ 0 ∧ first ≠ FAT_ENTRY_EOF then
              match seekLastLoop 65537 s.fat first with
              | none => none
              | some last => some (allocLoop (required_clusters - cur_count) s loc slot last)
            else some (allocLoop (required_clusters - cur_count) s loc slot 0)
          else some s
        match extended with
        | none => none
        | some s1 =>
          let first1 := entryFirstCluster s1 loc slot
          match chainCountLoop 65537 s1.fat first1 0 with
          | none => none
          | some count2 =>
            let max_writable := count2 * cs
            let size1 :=
              if offset ≥ max_writable then
                (if offset + size > max_writable then sub64 max_writable offset else size)
              else size
            match writeSkipLoop (offset + 1) s1 cs offset first1 0 with
            | none => none
            | some (c0, co0) =>
              match writeCopyLoop (size1 + 1) s1 cs buf size1 offset 0 c0 co0 with
              | none => none
              | some (s2, bw) =>
                let s3 := if offset + bw > entryFileSize s2 loc slot
                          then setEntryFileSize s2 loc slot (offset + bw) else s2
                some ((bw : Int), s3)

/-- `fat_truncate`: sets `file_size` only; clusters are neither freed nor
allocated. -/
def fat_truncate (s : FSState) (path : List Nat) (size : Nat) : Int × FSState :=
  match resolveTarget s path with
  | .error e => (-(e : Int), s)
  | .ok (loc, slot) =>
    if entryAttrs s loc slot &&& ATTR_DIRECTORY ≠ 0 then (-21, s)
    else (0, setEntryFileSize s loc slot size)

/-- `DISK_SIZE` (16 MiB). -/
def DISK_SIZE : Nat := 16777216

/-- `CLUSTER_SIZE`. -/
def CLUSTER_SIZE : Nat := 4096

/-- `total_clusters` computed by `fat_init` when formatting
(`(DISK_SIZE - sizeof(fs_metadata)) / (CLUSTER_SIZE + sizeof(uint16_t))`). -/
def formatTotalClusters : Nat := (DISK_SIZE - 20) / (CLUSTER_SIZE + 2)

/-- The freshly formatted image produced by `fat_init`: everything zeroed,
then `FAT[0] = 0xFFF8`, `FAT[1] = EOF`. -/
def formatImage : FSState :=
  { meta := { total_clusters := formatTotalClusters, cluster_size := CLUSTER_SIZE }
    fat := fun i => if i = 0 then 0xFFF8 else if i = 1 then FAT_ENTRY_EOF else 0
    rootDir := fun _ => 0
    data := fun _ _ => 0 }

/-- Length of the cluster chain starting at `c`, walked exactly as the count
loop of `fat_write` walks it; `none` when the walk runs longer than any
16-bit FAT permits without a cycle. -/
def chainLength (s : FSState) (c : Nat) : Option Nat :=
  chainCountLoop 65537 s.fat c 0

/-- Space-pad (or truncate) a byte list to length `n`. -/
def padTo (n : Nat) (l : List Nat) : List Nat := (l ++ List.replicate n 32).take n

/-- Prefix of a name up to (excluding) its first dot. -/
def firstDotStem (l : List Nat) : List Nat := l.takeWhile (fun c => c ≠ 46)

/-- The 8.3 encoding as claim C6 words it: the name is split at the LAST dot;
the stem is everything before that dot (the whole name when there is no
dot), uppercased, truncated to 8 and space-padded; the extension is what
follows that dot, when present and non-empty, uppercased, truncated to 3
and space-padded. -/
def claimName83 (l : List Nat) : List Nat × List Nat :=
  match lastIdxOf l 46 with
  | none => (padTo 8 ((l.take 8).map toupperB), List.replicate 3 32)
  | some d =>
    (padTo 8 (((l.take d).take 8).map toupperB),
     if l.drop (d + 1) = [] then List.replicate 3 32
     else padTo 3 (((l.drop (d + 1)).take 3).map toupperB))

/-- Build a directory entry in slot `slot` of block `loc` (used to assemble
concrete test states). -/
def mkEntry (s : FSState) (loc : DirLoc) (slot : Nat) (name : List Nat)
    (attr fc fsz : Nat) : FSState :=
  let s1 := setEntryBytes s loc slot 0 (padTo 8 name)
  let s2 := setEntryBytes s1 loc slot 8 (List.replicate 3 32)
  let s3 := setEntryByte s2 loc slot 11 attr
  let s4 := setEntryFirstCluster s3 loc slot fc
  setEntryFileSize s4 loc slot fsz

/-- Image for claim C1: 4 clusters of 64 bytes, no free cluster; `/f` is a
regular file with chain `[2]` and size 4, `/g` holds cluster 3. -/
def c1State : FSState :=
  mkEntry (mkEntry
    { meta := { total_clusters := 4, cluster_size := 64 }
      fat := fun i => if i = 0 then 0xFFF8 else if i ≤ 3 then FAT_ENTRY_EOF else 0
      rootDir := fun _ => 0, data := fun _ _ => 0 }
    .root 0 [70] ATTR_ARCHIVE 2 4) .root 1 [71] ATTR_ARCHIVE 3 4

/-- The buffer passed to the C1 write. -/
def c1buf : Nat → Nat := fun i => 100 + i

/-- Image for the C5 witness: 4 clusters of 64 bytes, clusters 2 and 3 free,
`/f` an empty regular file. -/
def c5State : FSState :=
  mkEntry
    { meta := { total_clusters := 4, cluster_size := 64 }
      fat := fun i => if i = 0 then 0xFFF8 else if i = 1 then FAT_ENTRY_EOF else 0
      rootDir := fun _ => 0, data := fun _ _ => 0 }
    .root 0 [70] ATTR_ARCHIVE FAT_ENTRY_EOF 0

/-- Image for the C5 counterexample: 3 clusters of 64 bytes, the single data
cluster 2 is held by `/g`, no cluster is free; `/f` is an empty regular
file. -/
def c5xState : FSState :=
  mkEntry (mkEntry
    { meta := { total_clusters := 3, cluster_size := 64 }
      fat := fun i => if i = 0 then 0xFFF8 else if i ≤ 2 then FAT_ENTRY_EOF else 0
      rootDir := fun _ => 0, data := fun _ _ => 0 }
    .root 0 [70] ATTR_ARCHIVE FAT_ENTRY_EOF 0) .root 1 [71] ATTR_ARCHIVE 2 4

/-- Image for claim C3: the FAT is corrupted with the 2-cycle
`FAT[2] = 3`, `FAT[3] = 2`, and `/f` starts at cluster 2. -/
def c3State : FSState :=
  mkEntry
    { meta := { total_clusters := 8, cluster_size := 64 }
      fat := fun i => if i = 0 then 0xFFF8 else if i = 1 then FAT_ENTRY_EOF
                      else if i = 2 then 3 else if i = 3 then 2 else 0
      rootDir := fun _ => 0, data := fun _ _ => 0 }
    .root 0 [70] ATTR_ARCHIVE 2 4

/-- The state after `create("/a")` on a fresh image (claim C2). -/
def c2s1 : FSState := (fat_create formatImage (strBytes "/a")).2

/-- The state after `create("/a"); truncate("/a", 5000)` on a fresh image
(claim C2). -/
def c2s2 : FSState := (fat_truncate c2s1 (strBytes "/a") 5000).2

/-- The state after `mkdir("/d")` on a fresh image: an empty directory. -/
def c7e : FSState := (fat_mkdir formatImage (strBytes "/d")).2

/-- The state after `mkdir("/d"); create("/d/f")` on a fresh image: a
non-empty directory (live entry at slot 2 of its cluster). -/
def c7ne : FSState := (fat_create c7e (strBytes "/d/f")).2

/-- The state `fat_create` builds on success: the chosen slot is zeroed, the
8.3 name and extension are written, attributes are set to ARCHIVE,
`first_cluster` to the EOF sentinel, and `file_size` to 0. -/
def newFileEntryState (s : FSState) (par : DirLoc) (slot : Nat) (nm1 nm2 : List Nat) : FSState :=
  setEntryFileSize (setEntryFirstCluster (setEntryByte (setEntryBytes (setEntryBytes
    (zeroEntry s par slot) par slot 0 nm1) par slot 8 nm2) par slot 11 ATTR_ARCHIVE)
    par slot FAT_ENTRY_EOF) par slot 0

/-- The state after `mkdir("/a")` on a fresh image (claim C4). -/
def c4s1 : FSState := (fat_mkdir formatImage (strBytes "/a")).2

/-- A well-formed FAT chain: the list of clusters visited from `c` following
`s.fat`, ending on the EOF sentinel.  Every element is a real data cluster. -/
def isChain (s : FSState) : Nat → List Nat → Prop
  | c, [] => c = FAT_ENTRY_EOF
  | c, x :: xs => c = x ∧ 2 ≤ x ∧ x < s.meta.total_clusters ∧ isChain s (s.fat x) xs

/-- Last element of a chain, 0 for the empty chain (the `last` value
`fat_write` passes to its extension loop). -/
def lastOr0 (l : List Nat) : Nat := l.getLastD 0

/-- Number of FREE FAT entries among the allocatable clusters `2 … tc-1`. -/
def freeCount (s : FSState) : Nat :=
  ((List.range' 2 (s.meta.total_clusters - 2)).filter (fun i => s.fat i == 0)).length

/-- State after `mkdir("/d")` on a fresh image (claim C8): the new directory
takes cluster 2. -/
def c8s1 : FSState := (fat_mkdir formatImage (strBytes "/d")).2

/-- State after `mkdir("/d")` then `rmdir("/d/.")` (claim C8). -/
def c8s2 : FSState := (fat_rmdir c8s1 (strBytes "/d/.")).2

end Fat16

namespace Fat16

set_option maxRecDepth 40000

/-- Every error exit of `fat_mkdir` happens before any mutation: the handler
either returns 0 or returns the input state. -/
theorem mkdir_error_or_unchanged (s : FSState) (path : List Nat) :
    (fat_mkdir s path).1 = 0 ∨ (fat_mkdir s path).2 = s := by
  unfold fat_mkdir
  dsimp only
  repeat' split
  all_goals first | (left; rfl) | (right; rfl)

/-- C10: whenever `fat_mkdir` returns an error (EINVAL, EEXIST, ENOENT,
ENOTDIR or ENOSPC, including the ENOSPC taken after a free directory slot
was already found but no free cluster exists), no byte of the image is
modified: the returned state is exactly the input state, hence the FAT,
every directory block and the data area are unchanged. -/
theorem C10_mkdir_error_leaves_image_unchanged (s : FSState) (path : List Nat)
    (h : (fat_mkdir s path).1 ≠ 0) : (fat_mkdir s path).2 = s :=
  (mkdir_error_or_unchanged s path).resolve_left h

/-- Witness for C10: `mkdir("/")` on a fresh image fails (EINVAL) and leaves
the image untouched. -/
theorem C10_mkdir_error_leaves_image_unchanged_witness :
    (fat_mkdir formatImage (strBytes "/")).1 ≠ 0 ∧
    (fat_mkdir formatImage (strBytes "/")).2 = formatImage :=
  ⟨by decide, C10_mkdir_error_leaves_image_unchanged formatImage (strBytes "/") (by decide)⟩

/-- C2 (code bug): the reachable state `format; create("/a"); truncate("/a",
5000)` holds a regular file whose `file_size` is 5000 while its cluster
chain is empty (`chain_length = 0`), so `file_size ≤ chain_length ×
cluster_size` fails: `fat_truncate` sets the size without allocating or
freeing clusters. -/
theorem C2_truncate_violates_size_invariant :
    (fat_create formatImage (strBytes "/a")).1 = 0 ∧
    (fat_truncate c2s1 (strBytes "/a") 5000).1 = 0 ∧
    entryAttrs c2s2 .root 0 = ATTR_ARCHIVE ∧
    entryFileSize c2s2 .root 0 = 5000 ∧
    chainLength c2s2 (entryFirstCluster c2s2 .root 0) = some 0 ∧
    c2s2.meta.cluster_size = 4096 ∧
    ¬ entryFileSize c2s2 .root 0 ≤ 0 * c2s2.meta.cluster_size := by decide

/-- C1 (code bug): on `c1State` (no free cluster; `/f` has the single-cluster
chain `[2]`, capacity 64), `write("/f", 3 bytes, offset 70)` cannot extend
the chain, and offset 70 lies beyond the 64 bytes the linked clusters can
hold, so 0 bytes fit; the orphaned clamp `size = max_writable_size -
offset` underflows and the call instead copies 58 bytes to the
out-of-range cluster 0xFFFF (bytes 6 and 7 of that cluster become buffer
bytes 100 and 101 — out-of-bounds writes in the real mapping), returns 58,
and sets `file_size` to 128 with the chain still one cluster long. -/
theorem C1_failed_extension_write_overruns :
    (fat_write c1State (strBytes "/f") c1buf 3 70).map (fun r =>
      (r.1, entryFileSize r.2 .root 0,
       chainLength r.2 (entryFirstCluster r.2 .root 0),
       r.2.meta.cluster_size, r.2.data 65535 6, r.2.data 65535 7)) =
      some (58, 128, some 1, 64, 100, 101) ∧
    chainLength c1State (entryFirstCluster c1State .root 0) = some 1 ∧
    (1 * 64 : Nat) ≤ 70 ∧ (58 : Int) ≠ 0 := by decide

/-- A FAT whose values form a 2-cycle defeats the count loop of `fat_write`
for every amount of fuel. -/
theorem chainCountLoop_two_cycle (fat : Nat → Nat) (a b : Nat)
    (hab : fat a = b) (hba : fat b = a)
    (ha1 : a ≠ FAT_ENTRY_EOF) (ha2 : a ≠ FAT_ENTRY_FREE)
    (hb1 : b ≠ FAT_ENTRY_EOF) (hb2 : b ≠ FAT_ENTRY_FREE) :
    ∀ fuel acc c, c = a ∨ c = b → chainCountLoop fuel fat c acc = none := by
  intro fuel
  induction fuel with
  | zero =>
    intro acc c hc
    rcases hc with rfl | rfl <;> simp [chainCountLoop, ha1, ha2, hb1, hb2]
  | succ f ih =>
    intro acc c hc
    rcases hc with rfl | rfl
    · rw [chainCountLoop, if_neg (by simp [ha1, ha2]), hab]
      exact ih _ _ (Or.inr rfl)
    · rw [chainCountLoop, if_neg (by simp [hb1, hb2]), hba]
      exact ih _ _ (Or.inl rfl)

/-- C3 (code bug): on the corrupted image `c3State` whose FAT holds the cycle
`2 → 3 → 2`, the path `/f` resolves to a regular file whose chain starts
at cluster 2, and the chain-count walk `fat_write` performs from there
(`while (c != EOF && c != FREE) c = fat[c]`) never finishes for any fuel —
in C it is an infinite loop, with no `total_clusters` bound and no EIO
anywhere in the driver. -/
theorem dirByte_setDirByte (s : FSState) (loc : DirLoc) (i v : Nat) (loc2 : DirLoc) (i2 : Nat) :
    dirByte (setDirByte s loc i v) loc2 i2 =
      if loc2 = loc ∧ i2 = i then v else dirByte s loc2 i2 := by
  cases loc <;> cases loc2 <;>
    simp only [dirByte, setDirByte, upd, DirLoc.cluster.injEq] <;>
    split_ifs <;> simp_all [upd]

theorem fat_setDirByte (s : FSState) (loc : DirLoc) (i v : Nat) :
    (setDirByte s loc i v).fat = s.fat := by cases loc <;> rfl

theorem meta_setDirByte (s : FSState) (loc : DirLoc) (i v : Nat) :
    (setDirByte s loc i v).meta = s.meta := by cases loc <;> rfl

theorem dirByte_fatUpdate (s : FSState) (f : Nat → Nat) (loc : DirLoc) (i : Nat) :
    dirByte { s with fat := f } loc i = dirByte s loc i := by cases loc <;> rfl

/-- Resolution of the literal root path always yields the root-target case. -/
theorem find_path_entry_root (s : FSState) (path : List Nat)
    (hp : cstr path = [47]) : (find_path_entry s path).1 = .rootTarget := by
  simp [find_path_entry, hp]

/-- C7: `rmdir` of the root path returns EBUSY and changes nothing; `rmdir`
of a resolved directory that has a live entry in some slot `i ≥ 2` (slots
0 and 1 are skipped) returns ENOTEMPTY and leaves the state exactly as it
was; `rmdir` of a resolved directory with no live entry at slots ≥ 2
returns 0, sets the FAT entry of its single data cluster to FREE (and no
other FAT entry), and tombstones the directory entry (first name byte
0xE5), touching no other directory byte. -/
theorem C7_rmdir_semantics (s : FSState) (path : List Nat) (loc : DirLoc) (slot : Nat) :
    (cstr path = [47] → fat_rmdir s path = (-16, s)) ∧
    ((find_path_entry s path).1 = .found loc slot →
     entryAttrs s loc slot &&& ATTR_DIRECTORY ≠ 0 →
     ((∃ i, i < entriesPerDir s ∧ 2 ≤ i ∧
        entryLive s (getDirFromCluster (entryFirstCluster s loc slot)) i = true) →
       fat_rmdir s path = (-39, s)) ∧
     ((∀ i < entriesPerDir s, 2 ≤ i →
        entryLive s (getDirFromCluster (entryFirstCluster s loc slot)) i = false) →
       (fat_rmdir s path).1 = 0 ∧
       (entryFirstCluster s loc slot ≠ 0 →
         (fat_rmdir s path).2.fat (entryFirstCluster s loc slot) = FAT_ENTRY_FREE ∧
         ∀ j, j ≠ entryFirstCluster s loc slot → (fat_rmdir s path).2.fat j = s.fat j) ∧
       entryByte (fat_rmdir s path).2 loc slot 0 = 0xE5 ∧
       (∀ loc2 i, ¬ (loc2 = loc ∧ i = 32 * slot) →
         dirByte (fat_rmdir s path).2 loc2 i = dirByte s loc2 i))) := by
  constructor
  · intro hp
    unfold fat_rmdir
    rw [if_pos hp]
  · intro hres hdir
    have hne : ¬ cstr path = [47] := by
      intro hp
      rw [find_path_entry_root s path hp] at hres
      exact PathResult.noConfusion hres
    have hresolve : resolveTarget s path = .ok (loc, slot) := by
      unfold resolveTarget
      rw [hres]
    have hbody : fat_rmdir s path =
        (if ((List.range' 2 (entriesPerDir s - 2)).any
            (fun i => entryLive s (getDirFromCluster (entryFirstCluster s loc slot)) i)) then
          (-39, s)
        else
          (0, setEntryByte (if entryFirstCluster s loc slot ≠ 0 then
              { s with fat := upd s.fat (entryFirstCluster s loc slot) 0 } else s)
            loc slot 0 0xE5)) := by
      unfold fat_rmdir
      rw [if_neg hne, hresolve]
      dsimp only
      rw [if_neg (by simpa using hdir)]
    constructor
    · intro hex
      have hany : ((List.range' 2 (entriesPerDir s - 2)).any
          (fun i => entryLive s (getDirFromCluster (entryFirstCluster s loc slot)) i)) = true := by
        rw [List.any_eq_true]
        obtain ⟨i, hilt, h2i, hlive⟩ := hex
        exact ⟨i, by rw [List.mem_range'_1]; omega, hlive⟩
      rw [hbody, if_pos hany]
    · intro hall
      have hfalse : ¬ ((List.range' 2 (entriesPerDir s - 2)).any
          (fun i => entryLive s (getDirFromCluster (entryFirstCluster s loc slot)) i)) = true := by
        intro hany
        rw [List.any_eq_true] at hany
        obtain ⟨i, hmem, hlive⟩ := hany
        rw [List.mem_range'_1] at hmem
        have := hall i (by omega) (by omega)
        simp [this] at hlive
      rw [hbody, if_neg hfalse]
      refine ⟨rfl, ?_, ?_, ?_⟩
      · intro hcne
        rw [if_pos hcne]
        constructor
        · rw [setEntryByte, fat_setDirByte]
          simp [upd, FAT_ENTRY_FREE]
        · intro j hj
          rw [setEntryByte, fat_setDirByte]
          simp [upd, hj]
      · rw [entryByte, setEntryByte, dirByte_setDirByte]
        simp
      · intro loc2 i hni
        rw [setEntryByte, dirByte_setDirByte, if_neg (by simpa using hni)]
        split_ifs with hc
        · exact dirByte_fatUpdate s _ loc2 i
        · rfl

/-- Witness for C7: on concrete images, `rmdir("/")` returns EBUSY unchanged;
`rmdir("/d")` on a directory holding a file returns ENOTEMPTY unchanged;
`rmdir("/d")` on an empty directory returns 0, frees its cluster 2 in the
FAT and tombstones its entry. -/
theorem C7_rmdir_semantics_witness :
    fat_rmdir formatImage (strBytes "/") = (-16, formatImage) ∧
    fat_rmdir c7ne (strBytes "/d") = (-39, c7ne) ∧
    (fat_rmdir c7e (strBytes "/d")).1 = 0 ∧
    (fat_rmdir c7e (strBytes "/d")).2.fat 2 = FAT_ENTRY_FREE ∧
    entryByte (fat_rmdir c7e (strBytes "/d")).2 .root 0 0 = 0xE5 := by
  refine ⟨(C7_rmdir_semantics formatImage (strBytes "/") .root 0).1 (by decide), ?_, ?_⟩
  · exact ((C7_rmdir_semantics c7ne (strBytes "/d") .root 0).2 (by decide) (by decide)).1
      ⟨2, by decide, by decide, by decide⟩
  · have h := ((C7_rmdir_semantics c7e (strBytes "/d") .root 0).2 (by decide) (by decide)).2
      (by decide)
    have hfc : entryFirstCluster c7e .root 0 = 2 := by decide
    refine ⟨h.1, ?_, ?_⟩
    · have := (h.2.1 (by decide)).1
      rwa [hfc] at this
    · exact h.2.2.1

theorem copyTr_le (cs size offset br co : Nat) :
    br + copyTr cs size offset br co ≤ max br size := by
  unfold copyTr
  split_ifs <;> omega

theorem readSeg_length (s : FSState) (c oic tr : Nat) : (readSeg s c oic tr).length = tr := by
  simp [readSeg]

/-- The skip loop of `fat_read` cannot run out of `offset + 1` fuel when the
cluster size is positive: each iteration advances `co` by `cluster_size`. -/
theorem readSkipLoop_some (s : FSState) (cs offset : Nat) :
    ∀ f c co, offset < co + f * cs → ∃ r, readSkipLoop f s cs offset c co = some r := by
  intro f
  induction f with
  | zero =>
    intro c co h
    rw [readSkipLoop, if_neg (by omega)]
    exact ⟨_, rfl⟩
  | succ f ih =>
    intro c co h
    rw [readSkipLoop]
    split_ifs with h1 h2
    · exact ⟨_, rfl⟩
    · exact ih _ _ (by rw [Nat.succ_mul] at h; omega)
    · exact ⟨_, rfl⟩

/-- When the skip loop stops at a cluster, the cluster base offset `co` is at
most `offset` and `offset` lies inside that cluster. -/
theorem readSkipLoop_post (s : FSState) (cs offset : Nat) :
    ∀ f c co c2 co2, co ≤ offset ∨ co = 0 →
      readSkipLoop f s cs offset c co = some (.atPos c2 co2) →
      offset < co2 + cs ∧ (co2 ≤ offset ∨ co2 = 0) := by
  intro f
  induction f with
  | zero =>
    intro c co c2 co2 hco h
    rw [readSkipLoop] at h
    split_ifs at h with h1
    all_goals first
      | exact Option.noConfusion h
      | (rw [Option.some_inj] at h; cases h; exact ⟨by omega, hco⟩)
  | succ f ih =>
    intro c co c2 co2 hco h
    rw [readSkipLoop] at h
    split_ifs at h with h1 h2
    all_goals first
      | (rw [Option.some_inj] at h; cases h; try exact ⟨by omega, hco⟩)
      | exact ih _ _ _ _ (Or.inl h1) h

/-- The copy loop of `fat_read` with fuel covering the remaining bytes always
returns: it appends some `extra` bytes to the accumulator, returns the
updated counter, and never copies more than `size` bytes in total. -/
theorem readCopyLoop_spec (s : FSState) (cs size offset : Nat) (hcs : 1 ≤ cs) :
    ∀ f br c co acc, co ≤ offset + br → offset + br - co < cs →
      size ≤ br + f → br ≤ size →
      ∃ extra, readCopyLoop f s cs size offset br c co acc = some (acc ++ extra, br + extra.length) ∧
        br + extra.length ≤ size := by
  intro f
  induction f with
  | zero =>
    intro br c co acc hco hoic hf hbr
    rw [readCopyLoop, if_neg (by omega)]
    exact ⟨[], by simp, by simpa using hbr⟩
  | succ f ih =>
    intro br c co acc hco hoic hf hbr
    rw [readCopyLoop]
    split_ifs with h1 h2 h3
    · refine ⟨readSeg s c (offset + br - co) (copyTr cs size offset br co), ?_, ?_⟩
      · rw [readSeg_length]
      · rw [readSeg_length]
        have := copyTr_le cs size offset br co
        omega
    · have htr_eq : copyTr cs size offset br co = cs - (offset + br - co) := by
        unfold copyTr at h2 ⊢
        split_ifs at h2 ⊢ with h4
        · omega
        · rfl
      have hco2 : co + cs = offset + (br + copyTr cs size offset br co) := by
        rw [htr_eq]; omega
      obtain ⟨extra, heq, hle⟩ := ih (br + copyTr cs size offset br co) (s.fat c) (co + cs)
        (acc ++ readSeg s c (offset + br - co) (copyTr cs size offset br co))
        (by omega) (by omega) (by omega) (by omega)
      refine ⟨readSeg s c (offset + br - co) (copyTr cs size offset br co) ++ extra, ?_, ?_⟩
      · rw [heq]
        simp [readSeg_length, Nat.add_assoc]
      · rw [List.length_append, readSeg_length] at *
        omega
    · refine ⟨readSeg s c (offset + br - co) (copyTr cs size offset br co), ?_, ?_⟩
      · rw [readSeg_length]
      · rw [readSeg_length]
        have := copyTr_le cs size offset br co
        omega
    · exact ⟨[], by simp, by simpa using hbr⟩

/-- C9: for a `read(path, buf, size, offset)` whose path resolves to a regular
file, the call returns exactly the number of bytes it copied into the
buffer; when `offset ≥ file_size` that number is 0 (in particular at
`offset = file_size`), and the count never exceeds `size` nor
`file_size - offset` (the clamped request). -/
theorem C9_read_clamps_and_returns_bytes_copied (s : FSState) (path : List Nat)
    (size offset : Nat) (loc : DirLoc) (slot : Nat)
    (hres : (find_path_entry s path).1 = .found loc slot)
    (hnd : entryAttrs s loc slot &&& ATTR_DIRECTORY = 0)
    (hcs : 1 ≤ s.meta.cluster_size) :
    ∃ bytes : List Nat,
      fat_read s path size offset = some ((bytes.length : Int), bytes) ∧
      (offset ≥ entryFileSize s loc slot → bytes.length = 0) ∧
      bytes.length ≤ size ∧
      bytes.length ≤ entryFileSize s loc slot - offset := by
  have hresolve : resolveTarget s path = .ok (loc, slot) := by
    unfold resolveTarget
    rw [hres]
  unfold fat_read
  rw [hresolve]
  dsimp only
  rw [if_neg (by simp [hnd])]
  by_cases hofs : offset ≥ entryFileSize s loc slot
  · rw [if_pos hofs]
    exact ⟨[], rfl, fun _ => rfl, by simp, by simp⟩
  · rw [if_neg hofs]
    set fsz := entryFileSize s loc slot with hfsz
    set size1 := if offset + size > fsz then fsz - offset else size with hsize1
    have hs1a : size1 ≤ size := by rw [hsize1]; split_ifs <;> omega
    have hs1b : size1 ≤ fsz - offset := by rw [hsize1]; split_ifs <;> omega
    by_cases hz : size1 = 0
    · rw [if_pos hz]
      exact ⟨[], rfl, fun h => absurd h hofs, by simp, by simp⟩
    · rw [if_neg hz]
      by_cases hfc : entryFirstCluster s loc slot = FAT_ENTRY_EOF ∨
          entryFirstCluster s loc slot = FAT_ENTRY_FREE
      · rw [if_pos hfc]
        exact ⟨[], rfl, fun h => absurd h hofs, by simp, by simp⟩
      · rw [if_neg hfc]
        obtain ⟨r, hr⟩ := readSkipLoop_some s s.meta.cluster_size offset (offset + 1)
          (entryFirstCluster s loc slot) 0
          (by have : offset + 1 ≤ (offset + 1) * s.meta.cluster_size :=
                Nat.le_mul_of_pos_right _ hcs
              omega)
        rw [hr]
        match r with
        | .early => exact ⟨[], rfl, fun h => absurd h hofs, by simp, by simp⟩
        | .atPos c2 co =>
          obtain ⟨hco1, hco2⟩ := readSkipLoop_post s s.meta.cluster_size offset (offset + 1)
            (entryFirstCluster s loc slot) 0 c2 co (Or.inr rfl) hr
          obtain ⟨extra, heq, hle⟩ := readCopyLoop_spec s s.meta.cluster_size size1 offset hcs
            (size1 + 1) 0 c2 co [] (by omega) (by omega) (by omega) (by omega)
          dsimp only
          rw [heq]
          refine ⟨extra, by simp, fun h => absurd h hofs, by simp at hle; omega,
            by simp at hle; omega⟩

/-- Witness for C9: on `c1State` (file `/f` of size 4), `read("/f", 10, 0)`
returns the copied bytes with count ≤ 4, and `read("/f", 10, 4)` at
`offset = file_size` returns 0 bytes. -/
theorem C9_read_clamps_and_returns_bytes_copied_witness :
    (∃ bytes : List Nat,
      fat_read c1State (strBytes "/f") 10 0 = some ((bytes.length : Int), bytes) ∧
      (0 ≥ entryFileSize c1State .root 0 → bytes.length = 0) ∧
      bytes.length ≤ 10 ∧ bytes.length ≤ entryFileSize c1State .root 0 - 0) ∧
    (∃ bytes : List Nat,
      fat_read c1State (strBytes "/f") 10 4 = some ((bytes.length : Int), bytes) ∧
      (4 ≥ entryFileSize c1State .root 0 → bytes.length = 0) ∧
      bytes.length ≤ 10 ∧ bytes.length ≤ entryFileSize c1State .root 0 - 4) :=
  ⟨C9_read_clamps_and_returns_bytes_copied c1State (strBytes "/f") 10 0 .root 0
      (by decide) (by decide) (by decide),
   C9_read_clamps_and_returns_bytes_copied c1State (strBytes "/f") 10 4 .root 0
      (by decide) (by decide) (by decide)⟩

theorem padTo_eq_append (n : Nat) (l : List Nat) (h : l.length ≤ n) :
    padTo n l = l ++ List.replicate (n - l.length) 32 := by
  unfold padTo
  rw [List.take_append_eq_append_take, List.take_of_length_le h, List.take_replicate]
  rw [inf_eq_left.mpr (Nat.sub_le n l.length)]

theorem padTo_set (n : Nat) (pre : List Nat) (v : Nat) (h : pre.length < n) :
    (padTo n pre).set pre.length v = padTo n (pre ++ [v]) := by
  rw [padTo_eq_append n pre (Nat.le_of_lt h),
      padTo_eq_append n (pre ++ [v]) (by rw [List.length_append]; simpa using h)]
  rw [List.set_eq_take_cons_drop _ (by
        rw [List.length_append, List.length_replicate]; omega)]
  rw [List.take_left, List.drop_append_eq_append_drop,
      List.drop_eq_nil_of_le (by omega), List.drop_replicate]
  simp only [List.nil_append, List.append_assoc, List.singleton_append,
    List.length_append, List.length_singleton]
  rw [show n - pre.length - (pre.length + 1 - pre.length) = n - (pre.length + 1) from by omega]

/-- The stem loop of `to_fat_name` fills the space-padded buffer with the
uppercased bytes before the first dot, up to 8 of them. -/
theorem stemLoop_pad : ∀ (l pre : List Nat), (0 : Nat) ∉ l → pre.length ≤ 8 →
    stemLoop l pre.length (padTo 8 pre) =
      padTo 8 (pre ++ ((l.takeWhile (fun c => c ≠ 46)).take (8 - pre.length)).map toupperB) := by
  intro l
  induction l with
  | nil => intro pre h0 hle; simp [stemLoop]
  | cons c rest ih =>
    intro pre h0 hle
    rw [stemLoop]
    split_ifs with hstop
    · rcases hstop with h | h | h
      · exact absurd (h ▸ List.mem_cons_self c rest) h0
      · subst h
        simp [List.takeWhile]
      · have : pre.length = 8 := by omega
        simp [this]
    · push_neg at hstop
      obtain ⟨hc0, hc46, hlt⟩ := hstop
      rw [padTo_set 8 pre (toupperB c) (by omega)]
      have hlen : pre.length + 1 = (pre ++ [toupperB c]).length := by simp
      rw [hlen, ih (pre ++ [toupperB c]) (fun hm => h0 (List.mem_cons_of_mem c hm))
        (by simp; omega)]
      congr 1
      have htw : List.takeWhile (fun c => c ≠ 46) (c :: rest) =
          c :: List.takeWhile (fun c => c ≠ 46) rest := by
        simp [List.takeWhile_cons, hc46]
      rw [htw, show (8 - pre.length) = (8 - (pre.length + 1)) + 1 from by omega,
        List.take_succ_cons]
      simp [List.append_assoc]

/-- The extension loop of `to_fat_name` fills the space-padded buffer with up
to 3 uppercased bytes of its input. -/
theorem extLoop_pad : ∀ (l pre : List Nat), (0 : Nat) ∉ l → pre.length ≤ 3 →
    extLoop l pre.length (padTo 3 pre) =
      padTo 3 (pre ++ (l.take (3 - pre.length)).map toupperB) := by
  intro l
  induction l with
  | nil => intro pre h0 hle; simp [extLoop]
  | cons c rest ih =>
    intro pre h0 hle
    rw [extLoop]
    split_ifs with hstop
    · rcases hstop with h | h
      · exact absurd (h ▸ List.mem_cons_self c rest) h0
      · have : pre.length = 3 := by omega
        simp [this]
    · push_neg at hstop
      obtain ⟨hc0, hlt⟩ := hstop
      rw [padTo_set 3 pre (toupperB c) (by omega)]
      have hlen : pre.length + 1 = (pre ++ [toupperB c]).length := by simp
      rw [hlen, ih (pre ++ [toupperB c]) (fun hm => h0 (List.mem_cons_of_mem c hm))
        (by simp; omega)]
      congr 1
      rw [show (3 - pre.length) = (3 - (pre.length + 1)) + 1 from by omega,
        List.take_succ_cons]
      simp [List.append_assoc]

/-- Counterexample to C6: on `a.b.c` the claim's last-dot split gives the
name field `A.B     `, but `to_fat_name` stops the stem at the FIRST dot
and produces `A       ` (the extension `C  ` agrees). -/
theorem C6_counterexample :
    to_fat_name (strBytes "a.b.c") = (strBytes "A       ", strBytes "C  ") ∧
    claimName83 (strBytes "a.b.c") = (strBytes "A.B     ", strBytes "C  ") ∧
    to_fat_name (strBytes "a.b.c") ≠ claimName83 (strBytes "a.b.c") := by decide

/-- C6 (amended): for every NUL-free source name, the name field is the
uppercased, 8-truncated, space-padded prefix before the FIRST dot, and the
ext field is the uppercased, 3-truncated, space-padded text after the LAST
dot when that text is non-empty (spaces otherwise). -/
theorem C6_name_encoding_first_dot_stem (name : List Nat) (h0 : (0 : Nat) ∉ name) :
    to_fat_name name =
      (padTo 8 (((firstDotStem name).take 8).map toupperB),
       match lastIdxOf name 46 with
       | none => List.replicate 3 32
       | some d =>
         if name.drop (d + 1) = [] then List.replicate 3 32
         else padTo 3 (((name.drop (d + 1)).take 3).map toupperB)) := by
  unfold to_fat_name
  have hcstr : cstr name = name := by
    unfold cstr
    rw [List.takeWhile_eq_self_iff]
    intro x hx
    simp only [decide_eq_true_eq]
    intro h
    exact h0 (h ▸ hx)
  rw [hcstr]
  dsimp only
  congr 1
  · rw [show List.replicate 8 32 = padTo 8 [] from by decide]
    have := stemLoop_pad name [] h0 (by simp)
    simp only [List.length_nil, List.nil_append, Nat.sub_zero] at this
    rw [this]
    unfold firstDotStem
    rfl
  · cases hL : lastIdxOf name 46 with
    | none => rfl
    | some d =>
      dsimp only
      by_cases hsfx : name.drop (d + 1) = []
      · rw [if_pos hsfx, if_neg (by simpa using hsfx)]
      · rw [if_neg hsfx, if_pos (by simpa using hsfx)]
        rw [show List.replicate 3 32 = padTo 3 [] from by decide]
        have h0d : (0 : Nat) ∉ name.drop (d + 1) := fun hm => h0 (List.drop_subset _ _ hm)
        have := extLoop_pad (name.drop (d + 1)) [] h0d (by simp)
        simp only [List.length_nil, List.nil_append, Nat.sub_zero] at this
        rw [this]

/-- Witness for the amended C6 at the concrete name `readme.md`. -/
theorem C6_name_encoding_first_dot_stem_witness :
    (0 : Nat) ∉ strBytes "readme.md" ∧
    to_fat_name (strBytes "readme.md") =
      (padTo 8 (((firstDotStem (strBytes "readme.md")).take 8).map toupperB),
       match lastIdxOf (strBytes "readme.md") 46 with
       | none => List.replicate 3 32
       | some d =>
         if (strBytes "readme.md").drop (d + 1) = [] then List.replicate 3 32
         else padTo 3 ((((strBytes "readme.md").drop (d + 1)).take 3).map toupperB)) :=
  ⟨by decide, C6_name_encoding_first_dot_stem (strBytes "readme.md") (by decide)⟩


theorem dirByte_setEntryBytes : ∀ (l : List Nat) (s : FSState) (loc : DirLoc) (slot off : Nat)
      (loc2 : DirLoc) (i : Nat),
    dirByte (setEntryBytes s loc slot off l) loc2 i =
      if loc2 = loc ∧ 32 * slot + off ≤ i ∧ i < 32 * slot + off + l.length
      then l.getD (i - (32 * slot + off)) 0
      else dirByte s loc2 i := by
  intro l
  induction l with
  | nil =>
    intro s loc slot off loc2 i
    rw [setEntryBytes,
      if_neg (by rintro ⟨h1, h2, h3⟩; simp only [List.length_nil, Nat.add_zero] at h3; omega)]
  | cons b rest ih =>
    intro s loc slot off loc2 i
    rw [setEntryBytes, ih, setEntryByte, dirByte_setDirByte]
    by_cases hl : loc2 = loc
    · subst hl
      by_cases h2 : 32 * slot + (off + 1) ≤ i ∧ i < 32 * slot + (off + 1) + rest.length
      · rw [if_pos ⟨rfl, h2⟩, if_pos ⟨rfl, by omega, by simp only [List.length_cons]; omega⟩]
        rw [show i - (32 * slot + off) = (i - (32 * slot + (off + 1))) + 1 from by omega]
        simp
      · rw [if_neg (fun hc => h2 hc.2)]
        by_cases hi : i = 32 * slot + off
        · rw [if_pos ⟨rfl, hi⟩, if_pos ⟨rfl, by omega, by simp only [List.length_cons]; omega⟩]
          rw [hi]
          simp
        · rw [if_neg (fun hc => hi hc.2),
            if_neg (by rintro ⟨-, hb1, hb2⟩; simp only [List.length_cons] at hb2; omega)]
    · rw [if_neg (fun hc => hl hc.1), if_neg (fun hc => hl hc.1), if_neg (fun hc => hl hc.1)]

theorem stemLoop_length : ∀ (l : List Nat) (i : Nat) (buf : List Nat),
    (stemLoop l i buf).length = buf.length := by
  intro l
  induction l with
  | nil => intro i buf; rfl
  | cons c rest ih =>
    intro i buf
    rw [stemLoop]
    split_ifs
    · rfl
    · rw [ih]
      simp

theorem extLoop_length : ∀ (l : List Nat) (i : Nat) (buf : List Nat),
    (extLoop l i buf).length = buf.length := by
  intro l
  induction l with
  | nil => intro i buf; rfl
  | cons c rest ih =>
    intro i buf
    rw [extLoop]
    split_ifs
    · rfl
    · rw [ih]
      simp

theorem to_fat_name_fst_length (l : List Nat) : (to_fat_name l).1.length = 8 := by
  unfold to_fat_name
  dsimp only
  rw [stemLoop_length]
  simp

theorem to_fat_name_snd_length (l : List Nat) : (to_fat_name l).2.length = 3 := by
  unfold to_fat_name
  dsimp only
  split
  · simp
  · split_ifs
    · rw [extLoop_length]
      simp
    · simp

theorem fat_setEntryBytes : ∀ (l : List Nat) (s : FSState) (loc : DirLoc) (slot off : Nat),
    (setEntryBytes s loc slot off l).fat = s.fat := by
  intro l
  induction l with
  | nil => intro s loc slot off; rfl
  | cons b rest ih =>
    intro s loc slot off
    rw [setEntryBytes, ih, setEntryByte, fat_setDirByte]

theorem meta_setEntryBytes : ∀ (l : List Nat) (s : FSState) (loc : DirLoc) (slot off : Nat),
    (setEntryBytes s loc slot off l).meta = s.meta := by
  intro l
  induction l with
  | nil => intro s loc slot off; rfl
  | cons b rest ih =>
    intro s loc slot off
    rw [setEntryBytes, ih, setEntryByte, meta_setDirByte]

theorem createdEntry_spec (s : FSState) (par : DirLoc) (slot : Nat) (nm1 nm2 : List Nat)
    (h1len : nm1.length = 8) (h2len : nm2.length = 3) :
    (∀ j, j < 8 → entryByte (newFileEntryState s par slot nm1 nm2) par slot j = nm1.getD j 0) ∧
    (∀ j, j < 3 →
      entryByte (newFileEntryState s par slot nm1 nm2) par slot (8 + j) = nm2.getD j 0) ∧
    entryAttrs (newFileEntryState s par slot nm1 nm2) par slot = ATTR_ARCHIVE ∧
    entryFirstCluster (newFileEntryState s par slot nm1 nm2) par slot = FAT_ENTRY_EOF ∧
    entryFileSize (newFileEntryState s par slot nm1 nm2) par slot = 0 ∧
    (newFileEntryState s par slot nm1 nm2).fat = s.fat ∧
    (newFileEntryState s par slot nm1 nm2).meta = s.meta ∧
    (∀ loc2 i, ¬ (loc2 = par ∧ 32 * slot ≤ i ∧ i < 32 * slot + 32) →
      dirByte (newFileEntryState s par slot nm1 nm2) loc2 i = dirByte s loc2 i) := by
  refine ⟨?_, ?_, ?_, ?_, ?_, ?_, ?_, ?_⟩
  · intro j hj
    simp only [newFileEntryState, entryByte, setEntryFileSize, setEntryFirstCluster,
      setEntryByte, zeroEntry, dirByte_setDirByte, dirByte_setEntryBytes, h1len, h2len]
    rw [if_neg (by rintro ⟨-, h⟩; omega), if_neg (by rintro ⟨-, h⟩; omega),
      if_neg (by rintro ⟨-, h⟩; omega), if_neg (by rintro ⟨-, h⟩; omega),
      if_neg (by rintro ⟨-, h⟩; omega), if_neg (by rintro ⟨-, h⟩; omega),
      if_neg (by rintro ⟨-, h⟩; omega),
      if_neg (by rintro ⟨-, h1, h2⟩; omega),
      if_pos ⟨by trivial, by omega, by omega⟩,
      show 32 * slot + j - (32 * slot + 0) = j from by omega]
  · intro j hj
    simp only [newFileEntryState, entryByte, setEntryFileSize, setEntryFirstCluster,
      setEntryByte, zeroEntry, dirByte_setDirByte, dirByte_setEntryBytes, h1len, h2len]
    rw [if_neg (by rintro ⟨-, h⟩; omega), if_neg (by rintro ⟨-, h⟩; omega),
      if_neg (by rintro ⟨-, h⟩; omega), if_neg (by rintro ⟨-, h⟩; omega),
      if_neg (by rintro ⟨-, h⟩; omega), if_neg (by rintro ⟨-, h⟩; omega),
      if_neg (by rintro ⟨-, h⟩; omega),
      if_pos ⟨by trivial, by omega, by omega⟩,
      show 32 * slot + (8 + j) - (32 * slot + 8) = j from by omega]
  · simp only [newFileEntryState, entryAttrs, entryByte, setEntryFileSize, setEntryFirstCluster,
      setEntryByte, zeroEntry, dirByte_setDirByte, dirByte_setEntryBytes, h1len, h2len]
    rw [if_neg (by rintro ⟨-, h⟩; omega), if_neg (by rintro ⟨-, h⟩; omega),
      if_neg (by rintro ⟨-, h⟩; omega), if_neg (by rintro ⟨-, h⟩; omega),
      if_neg (by rintro ⟨-, h⟩; omega), if_neg (by rintro ⟨-, h⟩; omega),
      if_pos (by simp)]
  · have h26 : entryByte (newFileEntryState s par slot nm1 nm2) par slot 26 = 255 := by
      simp only [newFileEntryState, entryByte, setEntryFileSize, setEntryFirstCluster,
        setEntryByte, zeroEntry, dirByte_setDirByte, dirByte_setEntryBytes, h1len, h2len]
      rw [if_neg (by rintro ⟨-, h⟩; omega), if_neg (by rintro ⟨-, h⟩; omega),
        if_neg (by rintro ⟨-, h⟩; omega), if_neg (by rintro ⟨-, h⟩; omega),
        if_neg (by rintro ⟨-, h⟩; omega), if_pos (by simp)]
      decide
    have h27 : entryByte (newFileEntryState s par slot nm1 nm2) par slot 27 = 255 := by
      simp only [newFileEntryState, entryByte, setEntryFileSize, setEntryFirstCluster,
        setEntryByte, zeroEntry, dirByte_setDirByte, dirByte_setEntryBytes, h1len, h2len]
      rw [if_neg (by rintro ⟨-, h⟩; omega), if_neg (by rintro ⟨-, h⟩; omega),
        if_neg (by rintro ⟨-, h⟩; omega), if_neg (by rintro ⟨-, h⟩; omega),
        if_pos (by simp)]
      decide
    unfold entryFirstCluster
    rw [h26, h27]
    decide
  · have hbyte : ∀ k, 28 ≤ k → k ≤ 31 →
        entryByte (newFileEntryState s par slot nm1 nm2) par slot k = 0 := by
      intro k hk1 hk2
      simp only [newFileEntryState, entryByte, setEntryFileSize, setEntryFirstCluster,
        setEntryByte, zeroEntry, dirByte_setDirByte, dirByte_setEntryBytes, h1len, h2len]
      by_cases h31 : k = 31
      · rw [if_pos (by simp [h31])]
      · rw [if_neg (by rintro ⟨-, h⟩; omega)]
        by_cases h30 : k = 30
        · rw [if_pos (by simp [h30])]
        · rw [if_neg (by rintro ⟨-, h⟩; omega)]
          by_cases h29 : k = 29
          · rw [if_pos (by simp [h29])]
          · rw [if_neg (by rintro ⟨-, h⟩; omega),
              if_pos (by have hk : k = 28 := by omega
                         simp [hk])]
    unfold entryFileSize
    rw [hbyte 28 (by omega) (by omega), hbyte 29 (by omega) (by omega),
      hbyte 30 (by omega) (by omega), hbyte 31 (by omega) (by omega)]
  · simp only [newFileEntryState, setEntryFileSize, setEntryFirstCluster, setEntryByte,
      zeroEntry]
    rw [fat_setDirByte, fat_setDirByte, fat_setDirByte, fat_setDirByte, fat_setDirByte,
      fat_setDirByte, fat_setDirByte, fat_setEntryBytes, fat_setEntryBytes, fat_setEntryBytes]
  · simp only [newFileEntryState, setEntryFileSize, setEntryFirstCluster, setEntryByte,
      zeroEntry]
    rw [meta_setDirByte, meta_setDirByte, meta_setDirByte, meta_setDirByte, meta_setDirByte,
      meta_setDirByte, meta_setDirByte, meta_setEntryBytes, meta_setEntryBytes,
      meta_setEntryBytes]
  · intro loc2 i hout
    simp only [newFileEntryState, setEntryFileSize, setEntryFirstCluster, setEntryByte,
      zeroEntry, dirByte_setDirByte, dirByte_setEntryBytes, h1len, h2len,
      List.length_replicate]
    rw [if_neg (by rintro ⟨rfl, h⟩; exact hout ⟨rfl, by omega, by omega⟩),
      if_neg (by rintro ⟨rfl, h⟩; exact hout ⟨rfl, by omega, by omega⟩),
      if_neg (by rintro ⟨rfl, h⟩; exact hout ⟨rfl, by omega, by omega⟩),
      if_neg (by rintro ⟨rfl, h⟩; exact hout ⟨rfl, by omega, by omega⟩),
      if_neg (by rintro ⟨rfl, h⟩; exact hout ⟨rfl, by omega, by omega⟩),
      if_neg (by rintro ⟨rfl, h⟩; exact hout ⟨rfl, by omega, by omega⟩),
      if_neg (by rintro ⟨rfl, h⟩; exact hout ⟨rfl, by omega, by omega⟩),
      if_neg (by rintro ⟨rfl, h1, h2⟩; exact hout ⟨rfl, by omega, by omega⟩),
      if_neg (by rintro ⟨rfl, h1, h2⟩; exact hout ⟨rfl, by omega, by omega⟩),
      if_neg (by rintro ⟨rfl, h1, h2⟩; exact hout ⟨rfl, by omega, by omega⟩)]

theorem fat_create_success_eq (s : FSState) (path : List Nat) (par : DirLoc) (slot : Nat)
    (hres : (find_path_entry s (cstr path)).1 = .fail 2 par)
    (hfree : find_free_dir_entry s par = some slot) :
    fat_create s path = (0, newFileEntryState s par slot
      (to_fat_name (basenameOf (cstr path))).1 (to_fat_name (basenameOf (cstr path))).2) := by
  unfold fat_create newFileEntryState
  dsimp only
  rw [hres]
  dsimp only
  rw [if_neg (by simp), hfree]

/-- Counterexample to C4: with only `/a` existing, the parent path `/a/b` of
`create("/a/b/c")` does not name an existing directory, yet the call
returns 0 and writes the entry `C` into `/a`'s block (cluster 2, slot 2):
`fat_create` uses the `parent_dir_data` left behind by the failed full-path
resolution instead of resolving the parent. -/
theorem C4_counterexample :
    (fat_mkdir formatImage (strBytes "/a")).1 = 0 ∧
    (find_path_entry c4s1 (strBytes "/a/b")).1 = .fail 2 (DirLoc.cluster 2) ∧
    (fat_create c4s1 (strBytes "/a/b/c")).1 = 0 ∧
    entryNameBytes (fat_create c4s1 (strBytes "/a/b/c")).2 (.cluster 2) 2 =
      strBytes "C       " ∧
    entryAttrs (fat_create c4s1 (strBytes "/a/b/c")).2 (.cluster 2) 2 = ATTR_ARCHIVE := by
  decide

/-- C4 (amended): `fat_create` resolves the FULL path.  If it resolves (or is
the root path), EEXIST; a resolution error other than ENOENT propagates;
on ENOENT the new entry — basename after the last slash, ARCHIVE
attribute, EOF-sentinel first cluster, file_size 0 — is written into a
free slot of the directory block where resolution stopped (the deepest
existing prefix), with every other byte, the FAT and the metadata
untouched; ENOSPC when that block has no free slot.  The parent path
itself is never required to exist. -/
theorem C4_create_uses_partial_resolution_parent (s : FSState) (path : List Nat) :
    ((∃ loc slot, (find_path_entry s (cstr path)).1 = .found loc slot) →
       fat_create s path = (-17, s)) ∧
    ((find_path_entry s (cstr path)).1 = .rootTarget → fat_create s path = (-17, s)) ∧
    (∀ e par, (find_path_entry s (cstr path)).1 = .fail e par → e ≠ 2 →
       fat_create s path = (-(e : Int), s)) ∧
    (∀ par, (find_path_entry s (cstr path)).1 = .fail 2 par →
      (find_free_dir_entry s par = none → fat_create s path = (-28, s)) ∧
      (∀ slot, find_free_dir_entry s par = some slot →
        (fat_create s path).1 = 0 ∧
        (∀ j, j < 8 → entryByte (fat_create s path).2 par slot j =
          (to_fat_name (basenameOf (cstr path))).1.getD j 0) ∧
        (∀ j, j < 3 → entryByte (fat_create s path).2 par slot (8 + j) =
          (to_fat_name (basenameOf (cstr path))).2.getD j 0) ∧
        entryAttrs (fat_create s path).2 par slot = ATTR_ARCHIVE ∧
        entryFirstCluster (fat_create s path).2 par slot = FAT_ENTRY_EOF ∧
        entryFileSize (fat_create s path).2 par slot = 0 ∧
        (fat_create s path).2.fat = s.fat ∧
        (fat_create s path).2.meta = s.meta ∧
        (∀ loc2 i, ¬ (loc2 = par ∧ 32 * slot ≤ i ∧ i < 32 * slot + 32) →
          dirByte (fat_create s path).2 loc2 i = dirByte s loc2 i))) := by
  refine ⟨?_, ?_, ?_, ?_⟩
  · rintro ⟨loc, slot, hres⟩
    unfold fat_create
    dsimp only
    rw [hres]
  · intro hres
    unfold fat_create
    dsimp only
    rw [hres]
  · intro e par hres hne
    unfold fat_create
    dsimp only
    rw [hres]
    dsimp only
    rw [if_pos hne]
  · intro par hres
    constructor
    · intro hfree
      unfold fat_create
      dsimp only
      rw [hres]
      dsimp only
      rw [if_neg (by simp), hfree]
    · intro slot hfree
      rw [fat_create_success_eq s path par slot hres hfree]
      exact ⟨rfl, (createdEntry_spec s par slot _ _ (to_fat_name_fst_length _)
        (to_fat_name_snd_length _)).1,
        (createdEntry_spec s par slot _ _ (to_fat_name_fst_length _)
          (to_fat_name_snd_length _)).2.1,
        (createdEntry_spec s par slot _ _ (to_fat_name_fst_length _)
          (to_fat_name_snd_length _)).2.2.1,
        (createdEntry_spec s par slot _ _ (to_fat_name_fst_length _)
          (to_fat_name_snd_length _)).2.2.2.1,
        (createdEntry_spec s par slot _ _ (to_fat_name_fst_length _)
          (to_fat_name_snd_length _)).2.2.2.2.1,
        (createdEntry_spec s par slot _ _ (to_fat_name_fst_length _)
          (to_fat_name_snd_length _)).2.2.2.2.2.1,
        (createdEntry_spec s par slot _ _ (to_fat_name_fst_length _)
          (to_fat_name_snd_length _)).2.2.2.2.2.2.1,
        (createdEntry_spec s par slot _ _ (to_fat_name_fst_length _)
          (to_fat_name_snd_length _)).2.2.2.2.2.2.2⟩

/-- Witness for the amended C4 on concrete images: `create("/a/b/c")` with
only `/a` existing lands in `/a`'s block at slot 2 with the specified
fields, and `create("/a")` when `/a` exists returns EEXIST. -/
theorem C4_create_uses_partial_resolution_parent_witness :
    (fat_create c4s1 (strBytes "/a/b/c")).1 = 0 ∧
    entryAttrs (fat_create c4s1 (strBytes "/a/b/c")).2 (.cluster 2) 2 = ATTR_ARCHIVE ∧
    entryFirstCluster (fat_create c4s1 (strBytes "/a/b/c")).2 (.cluster 2) 2 = FAT_ENTRY_EOF ∧
    entryFileSize (fat_create c4s1 (strBytes "/a/b/c")).2 (.cluster 2) 2 = 0 ∧
    (fat_create c4s1 (strBytes "/a/b/c")).2.fat = c4s1.fat ∧
    fat_create c4s1 (strBytes "/a") = (-17, c4s1) := by
  have h := (C4_create_uses_partial_resolution_parent c4s1 (strBytes "/a/b/c")).2.2.2
    (.cluster 2) (by decide)
  have hs := h.2 2 (by decide)
  exact ⟨hs.1, hs.2.2.2.1, hs.2.2.2.2.1, hs.2.2.2.2.2.1, hs.2.2.2.2.2.2.1,
    (C4_create_uses_partial_resolution_parent c4s1 (strBytes "/a")).1
      ⟨DirLoc.root, 0, by decide⟩⟩

theorem C3_write_chain_walk_diverges_on_cycle :
    (find_path_entry c3State (strBytes "/f")).1 = .found .root 0 ∧
    entryAttrs c3State .root 0 = ATTR_ARCHIVE ∧
    entryFirstCluster c3State .root 0 = 2 ∧
    c3State.fat 2 = 3 ∧ c3State.fat 3 = 2 ∧
    chainLength c3State 2 = none ∧
    (∀ fuel acc, chainCountLoop fuel c3State.fat 2 acc = none) := by
  have hdiv : ∀ fuel acc c, c = 2 ∨ c = 3 → chainCountLoop fuel c3State.fat c acc = none :=
    chainCountLoop_two_cycle c3State.fat 2 3 (by decide) (by decide) (by decide)
      (by decide) (by decide) (by decide)
  refine ⟨by decide, by decide, by decide, by decide, by decide,
    hdiv 65537 0 2 (Or.inl rfl), fun fuel acc => hdiv fuel acc 2 (Or.inl rfl)⟩

end Fat16

namespace Fat16
set_option maxRecDepth 40000

theorem isChain_mem_bounds (s : FSState) :
    ∀ (l : List Nat) (c : Nat), isChain s c l → ∀ x ∈ l, 2 ≤ x ∧ x < s.meta.total_clusters := by
  intro l
  induction l with
  | nil => intro c _ x hx; cases hx
  | cons y ys ih =>
    intro c h x hx
    obtain ⟨rfl, h2, h3, h4⟩ := h
    rw [List.mem_cons] at hx
    rcases hx with rfl | hx
    · exact ⟨h2, h3⟩
    · exact ih _ h4 x hx

theorem isChain_fat_ne_zero (s : FSState) :
    ∀ (l : List Nat) (c : Nat), isChain s c l → ∀ x ∈ l, s.fat x ≠ 0 := by
  intro l
  induction l with
  | nil => intro c _ x hx; cases hx
  | cons y ys ih =>
    intro c h x hx
    obtain ⟨rfl, h2, h3, h4⟩ := h
    rw [List.mem_cons] at hx
    rcases hx with rfl | hx
    · cases ys with
      | nil =>
        simp only [isChain, FAT_ENTRY_EOF] at h4
        omega
      | cons z zs =>
        obtain ⟨hz, hz2, -, -⟩ := h4
        omega
    · exact ih _ h4 x hx

theorem isChain_congr (s s' : FSState) (hmeta : s'.meta.total_clusters = s.meta.total_clusters) :
    ∀ (l : List Nat) (c : Nat), isChain s c l → (∀ x ∈ l, s'.fat x = s.fat x) →
      isChain s' c l := by
  intro l
  induction l with
  | nil => intro c h _; exact h
  | cons y ys ih =>
    intro c h hagree
    obtain ⟨rfl, h2, h3, h4⟩ := h
    refine ⟨rfl, h2, by omega, ?_⟩
    rw [hagree c (List.mem_cons_self c ys)]
    exact ih _ h4 (fun x hx => hagree x (List.mem_cons_of_mem c hx))

theorem isChain_length_le (s : FSState) (l : List Nat) (c : Nat)
    (h : isChain s c l) (hnd : l.Nodup) : l.length ≤ s.meta.total_clusters - 2 := by
  have hsub : l ⊆ List.range' 2 (s.meta.total_clusters - 2) := by
    intro x hx
    obtain ⟨h2, h3⟩ := isChain_mem_bounds s l c h x hx
    rw [List.mem_range'_1]
    omega
  have := (List.subperm_of_subset hnd hsub).length_le
  simpa using this

theorem chainCountLoop_of_isChain (s : FSState) (htc : s.meta.total_clusters ≤ 65535) :
    ∀ (l : List Nat) (c acc fuel : Nat), isChain s c l → l.length ≤ fuel →
      chainCountLoop fuel s.fat c acc = some (acc + l.length) := by
  intro l
  induction l with
  | nil =>
    intro c acc fuel h _
    have hx : c = FAT_ENTRY_EOF := h
    cases fuel with
    | zero => rw [chainCountLoop, if_pos (Or.inl hx)]; simp
    | succ f => rw [chainCountLoop, if_pos (Or.inl hx)]; simp
  | cons y ys ih =>
    intro c acc fuel h hf
    obtain ⟨rfl, h2, h3, h4⟩ := h
    cases fuel with
    | zero => simp at hf
    | succ f =>
      rw [chainCountLoop, if_neg (by unfold FAT_ENTRY_EOF FAT_ENTRY_FREE; omega)]
      rw [ih _ (acc + 1) f h4 (by simpa using hf)]
      congr 1
      simp only [List.length_cons]
      omega

theorem seekLastLoop_of_isChain (s : FSState) (htc : s.meta.total_clusters ≤ 65535) :
    ∀ (l : List Nat) (c fuel : Nat), isChain s c l → l ≠ [] → l.length ≤ fuel + 1 →
      seekLastLoop fuel s.fat c = some (lastOr0 l) := by
  intro l
  induction l with
  | nil => intro c fuel _ hne _; exact absurd rfl hne
  | cons y ys ih =>
    intro c fuel h _ hf
    obtain ⟨rfl, h2, h3, h4⟩ := h
    cases ys with
    | nil =>
      have h4x : s.fat c = FAT_ENTRY_EOF := h4
      cases fuel with
      | zero => simp [seekLastLoop, h4x, lastOr0]
      | succ f => simp [seekLastLoop, h4x, lastOr0]
    | cons z zs =>
      obtain ⟨hz, hz2, hz3, h5⟩ := h4
      cases fuel with
      | zero => simp at hf
      | succ f =>
        rw [seekLastLoop, if_neg (by rw [hz]; unfold FAT_ENTRY_EOF; omega)]
        rw [ih _ f (show isChain s (s.fat c) (z :: zs) from ⟨hz, hz2, hz3, h5⟩)
          (by simp) (by simpa using hf)]
        simp [lastOr0, List.getLastD_cons]

theorem find_free_cluster_spec (s : FSState) (hfc : 0 < freeCount s) :
    2 ≤ find_free_cluster s ∧ find_free_cluster s < s.meta.total_clusters ∧
      s.fat (find_free_cluster s) = 0 := by
  unfold freeCount at hfc
  unfold find_free_cluster
  have : ∃ x ∈ List.range' 2 (s.meta.total_clusters - 2), (s.fat x == 0) = true := by
    rcases hx : (List.range' 2 (s.meta.total_clusters - 2)).filter (fun i => s.fat i == 0) with
      _ | ⟨a, rest⟩
    · rw [hx] at hfc; simp at hfc
    · have ha : a ∈ (List.range' 2 (s.meta.total_clusters - 2)).filter
          (fun i => s.fat i == 0) := by rw [hx]; exact List.mem_cons_self a rest
      rw [List.mem_filter] at ha
      exact ⟨a, ha.1, ha.2⟩
  rw [← List.find?_isSome] at this
  rcases hfind : (List.range' 2 (s.meta.total_clusters - 2)).find? (fun i => s.fat i == 0) with
    _ | c
  · rw [hfind] at this; simp at this
  · dsimp only
    have hmem := List.mem_of_find?_eq_some hfind
    have hpred := List.find?_some hfind
    rw [List.mem_range'_1] at hmem
    simp only [beq_iff_eq] at hpred
    exact ⟨by omega, by omega, hpred⟩

end Fat16

namespace Fat16
set_option maxRecDepth 40000

theorem fat_setEntryFirstCluster (s : FSState) (loc : DirLoc) (slot v : Nat) :
    (setEntryFirstCluster s loc slot v).fat = s.fat := by
  unfold setEntryFirstCluster setEntryByte
  rw [fat_setDirByte, fat_setDirByte]

theorem meta_setEntryFirstCluster (s : FSState) (loc : DirLoc) (slot v : Nat) :
    (setEntryFirstCluster s loc slot v).meta = s.meta := by
  unfold setEntryFirstCluster setEntryByte
  rw [meta_setDirByte, meta_setDirByte]

theorem dirByte_setEntryFirstCluster (s : FSState) (loc : DirLoc) (slot v : Nat)
    (loc2 : DirLoc) (i : Nat) :
    dirByte (setEntryFirstCluster s loc slot v) loc2 i =
      if loc2 = loc ∧ i = 32 * slot + 27 then v % 65536 / 256
      else if loc2 = loc ∧ i = 32 * slot + 26 then v % 65536 % 256
      else dirByte s loc2 i := by
  unfold setEntryFirstCluster setEntryByte
  rw [dirByte_setDirByte, dirByte_setDirByte]

theorem entryFirstCluster_setEntryFirstCluster (s : FSState) (loc : DirLoc) (slot v : Nat) :
    entryFirstCluster (setEntryFirstCluster s loc slot v) loc slot = v % 65536 := by
  unfold entryFirstCluster entryByte
  rw [dirByte_setEntryFirstCluster, dirByte_setEntryFirstCluster]
  rw [if_neg (by rintro ⟨-, h⟩; omega), if_pos ⟨rfl, rfl⟩, if_pos ⟨rfl, rfl⟩]
  omega

theorem fat_setEntryFileSize (s : FSState) (loc : DirLoc) (slot v : Nat) :
    (setEntryFileSize s loc slot v).fat = s.fat := by
  unfold setEntryFileSize setEntryByte
  rw [fat_setDirByte, fat_setDirByte, fat_setDirByte, fat_setDirByte]

theorem meta_setEntryFileSize (s : FSState) (loc : DirLoc) (slot v : Nat) :
    (setEntryFileSize s loc slot v).meta = s.meta := by
  unfold setEntryFileSize setEntryByte
  rw [meta_setDirByte, meta_setDirByte, meta_setDirByte, meta_setDirByte]

theorem dirByte_setEntryFileSize (s : FSState) (loc : DirLoc) (slot v : Nat)
    (loc2 : DirLoc) (i : Nat) :
    dirByte (setEntryFileSize s loc slot v) loc2 i =
      if loc2 = loc ∧ i = 32 * slot + 31 then v % 4294967296 / 16777216
      else if loc2 = loc ∧ i = 32 * slot + 30 then v % 4294967296 / 65536 % 256
      else if loc2 = loc ∧ i = 32 * slot + 29 then v % 4294967296 / 256 % 256
      else if loc2 = loc ∧ i = 32 * slot + 28 then v % 4294967296 % 256
      else dirByte s loc2 i := by
  unfold setEntryFileSize setEntryByte
  rw [dirByte_setDirByte, dirByte_setDirByte, dirByte_setDirByte, dirByte_setDirByte]

theorem entryFileSize_setEntryFileSize (s : FSState) (loc : DirLoc) (slot v : Nat) :
    entryFileSize (setEntryFileSize s loc slot v) loc slot = v % 4294967296 := by
  unfold entryFileSize entryByte
  rw [dirByte_setEntryFileSize, dirByte_setEntryFileSize, dirByte_setEntryFileSize,
    dirByte_setEntryFileSize]
  rw [if_neg (by rintro ⟨-, h⟩; omega), if_neg (by rintro ⟨-, h⟩; omega),
    if_neg (by rintro ⟨-, h⟩; omega), if_pos ⟨rfl, rfl⟩]
  rw [if_neg (by rintro ⟨-, h⟩; omega), if_neg (by rintro ⟨-, h⟩; omega),
    if_pos ⟨rfl, rfl⟩]
  rw [if_neg (by rintro ⟨-, h⟩; omega), if_pos ⟨rfl, rfl⟩]
  rw [if_pos ⟨rfl, rfl⟩]
  omega

theorem fat_writeSeg (s : FSState) (c oic : Nat) (buf : Nat → Nat) (bw tr : Nat) :
    (writeSeg s c oic buf bw tr).fat = s.fat := rfl

theorem meta_writeSeg (s : FSState) (c oic : Nat) (buf : Nat → Nat) (bw tr : Nat) :
    (writeSeg s c oic buf bw tr).meta = s.meta := rfl

theorem rootDir_writeSeg (s : FSState) (c oic : Nat) (buf : Nat → Nat) (bw tr : Nat) :
    (writeSeg s c oic buf bw tr).rootDir = s.rootDir := rfl

theorem data_writeSeg (s : FSState) (c oic : Nat) (buf : Nat → Nat) (bw tr : Nat)
    (c2 i : Nat) :
    (writeSeg s c oic buf bw tr).data c2 i =
      if c2 = c ∧ oic ≤ i ∧ i < oic + tr then buf (bw + (i - oic)) % 256
      else s.data c2 i := by
  unfold writeSeg
  dsimp only
  by_cases hc2 : c2 = c
  · subst hc2
    rw [if_pos rfl]
    by_cases hi : oic ≤ i ∧ i < oic + tr
    · rw [if_pos hi, if_pos ⟨rfl, hi.1, hi.2⟩]
    · rw [if_neg hi, if_neg (by rintro ⟨-, h1, h2⟩; exact hi ⟨h1, h2⟩)]
  · rw [if_neg hc2, if_neg (by rintro ⟨h, -⟩; exact hc2 h)]

theorem countFree_congr (f g : Nat → Nat) :
    ∀ (r : List Nat), (∀ x ∈ r, (f x == 0) = (g x == 0)) →
      (r.filter (fun i => f i == 0)).length = (r.filter (fun i => g i == 0)).length := by
  intro r h
  rw [List.filter_congr h]

theorem countFree_upd (f : Nat → Nat) (c v : Nat) (hv : v ≠ 0) (hc : f c = 0) :
    ∀ (r : List Nat), r.Nodup → c ∈ r →
      (r.filter (fun i => upd f c v i == 0)).length =
        (r.filter (fun i => f i == 0)).length - 1 := by
  intro r
  induction r with
  | nil => intro _ h; cases h
  | cons a r' ih =>
    intro hnd hmem
    rw [List.nodup_cons] at hnd
    rw [List.mem_cons] at hmem
    rcases hmem with rfl | hmem
    · have h1 : (upd f c v c == 0) = false := by
        simp only [upd, if_pos rfl, beq_eq_false_iff_ne, ne_eq]
        exact hv
      have h2 : (f c == 0) = true := by simp [hc]
      rw [List.filter_cons, List.filter_cons, h1, h2]
      rw [if_neg (by simp), if_pos rfl]
      simp only [List.length_cons]
      have hcg : ∀ x ∈ r', ((upd f c v x == 0) = (f x == 0)) := by
        intro x hx
        have hxc : x ≠ c := fun he => hnd.1 (he ▸ hx)
        simp [upd, hxc]
      rw [countFree_congr _ _ r' hcg]
      omega
    · have hca : c ≠ a := fun he => hnd.1 (he ▸ hmem)
      have hlen : 1 ≤ (r'.filter (fun i => f i == 0)).length := by
        have : c ∈ r'.filter (fun i => f i == 0) := by
          rw [List.mem_filter]; exact ⟨hmem, by simp [hc]⟩
        exact List.length_pos_of_mem this
      have hhead : (upd f c v a == 0) = (f a == 0) := by simp [upd, Ne.symm hca]
      rw [List.filter_cons, List.filter_cons, hhead]
      rcases hfa : (f a == 0) with _ | _
      · rw [if_neg (by simp), if_neg (by simp)]
        exact ih hnd.2 hmem
      · rw [if_pos rfl, if_pos rfl]
        simp only [List.length_cons]
        rw [ih hnd.2 hmem]
        omega

theorem freeCount_fatUpd (s : FSState) (c v : Nat) (hv : v ≠ 0) (hc : s.fat c = 0)
    (h2 : 2 ≤ c) (h3 : c < s.meta.total_clusters) :
    freeCount { s with fat := upd s.fat c v } = freeCount s - 1 := by
  unfold freeCount
  dsimp only
  exact countFree_upd s.fat c v hv hc _ (List.nodup_range' _ _ _) (by rw [List.mem_range'_1]; omega)

theorem freeCount_fatUpd_nonfree (s : FSState) (c v : Nat) (hv : v ≠ 0) (hc : s.fat c ≠ 0) :
    freeCount { s with fat := upd s.fat c v } = freeCount s := by
  unfold freeCount
  dsimp only
  apply countFree_congr
  intro x _
  by_cases hx : x = c
  · subst hx; simp [upd]; omega
  · simp [upd, hx]

theorem freeCount_congr_state (s s' : FSState)
    (hmeta : s'.meta.total_clusters = s.meta.total_clusters)
    (hfat : ∀ i, s'.fat i = s.fat i) : freeCount s' = freeCount s := by
  unfold freeCount
  rw [hmeta]
  apply countFree_congr
  intro x _
  rw [hfat]

theorem lastOr0_cons_cons (a b : Nat) (l : List Nat) :
    lastOr0 (a :: b :: l) = lastOr0 (b :: l) := by
  simp [lastOr0, List.getLastD_cons]

theorem lastOr0_mem : ∀ (l : List Nat), l ≠ [] → lastOr0 l ∈ l := by
  intro l
  induction l with
  | nil => intro h; exact absurd rfl h
  | cons a l' ih =>
    intro _
    cases l' with
    | nil => simp [lastOr0]
    | cons b l'' =>
      rw [lastOr0_cons_cons]
      exact List.mem_cons_of_mem a (ih (by simp))

theorem isChain_fat_lastOr0 (s : FSState) :
    ∀ (l : List Nat) (c : Nat), isChain s c l → l ≠ [] →
      s.fat (lastOr0 l) = FAT_ENTRY_EOF := by
  intro l
  induction l with
  | nil => intro c _ h; exact absurd rfl h
  | cons a l' ih =>
    intro c h _
    obtain ⟨rfl, h2, h3, h4⟩ := h
    cases l' with
    | nil => simpa [lastOr0] using h4
    | cons b l'' =>
      rw [lastOr0_cons_cons]
      exact ih _ h4 (by simp)

theorem isChain_snoc (s s' : FSState) :
    ∀ (l : List Nat) (first nc : Nat),
    s'.meta.total_clusters = s.meta.total_clusters →
    isChain s first l → l.Nodup →
    (∀ x ∈ l, x ≠ lastOr0 l → s'.fat x = s.fat x) →
    (l ≠ [] → s'.fat (lastOr0 l) = nc) →
    2 ≤ nc → nc < s.meta.total_clusters →
    s'.fat nc = FAT_ENTRY_EOF →
    (l = [] → first = nc) →
    isChain s' first (l ++ [nc]) := by
  intro l
  induction l with
  | nil =>
    intro first nc hmeta _ _ _ _ hnc2 hnctc hncEOF hfirst
    exact ⟨hfirst rfl, hnc2, by omega, hncEOF⟩
  | cons a l' ih =>
    intro first nc hmeta h hnd hagree hlast hnc2 hnctc hncEOF _
    obtain ⟨rfl, h2, h3, h4⟩ := h
    rw [List.nodup_cons] at hnd
    cases l' with
    | nil =>
      have hl : s'.fat first = nc := by
        have := hlast (by simp)
        simpa [lastOr0] using this
      refine ⟨rfl, h2, by omega, ?_⟩
      rw [hl]
      exact ⟨rfl, hnc2, by omega, hncEOF⟩
    | cons b l'' =>
      have hne : first ≠ lastOr0 (first :: b :: l'') := by
        rw [lastOr0_cons_cons]
        intro he
        exact hnd.1 (he ▸ lastOr0_mem (b :: l'') (by simp))
      refine ⟨rfl, h2, by omega, ?_⟩
      rw [hagree first (List.mem_cons_self first _) hne]
      exact ih (s.fat first) nc hmeta h4 hnd.2
        (fun x hx hxl => hagree x (List.mem_cons_of_mem first hx)
          (by rw [lastOr0_cons_cons]; exact hxl))
        (fun _ => by rw [← lastOr0_cons_cons first]; exact hlast (by simp))
        hnc2 hnctc hncEOF (by simp)

end Fat16

namespace Fat16
set_option maxRecDepth 40000

theorem entryFirstCluster_fatUpdate (s : FSState) (f : Nat → Nat) (loc : DirLoc) (slot : Nat) :
    entryFirstCluster { s with fat := f } loc slot = entryFirstCluster s loc slot := by
  unfold entryFirstCluster entryByte
  simp only [dirByte_fatUpdate]

theorem lastOr0_concat : ∀ (l : List Nat) (a : Nat), lastOr0 (l ++ [a]) = a := by
  intro l
  induction l with
  | nil => intro a; rfl
  | cons b l' ih =>
    intro a
    cases l' with
    | nil => rfl
    | cons d l'' =>
      rw [List.cons_append, List.cons_append, lastOr0_cons_cons]
      exact ih a

theorem allocLoop_succ (k : Nat) (s : FSState) (loc : DirLoc) (slot last : Nat) :
    allocLoop (k + 1) s loc slot last =
      if find_free_cluster s = 0 then s
      else allocLoop k
        (if last = 0 then
          setEntryFirstCluster { s with fat := upd s.fat (find_free_cluster s) FAT_ENTRY_EOF }
            loc slot (find_free_cluster s)
         else { s with fat := upd (upd s.fat (find_free_cluster s) FAT_ENTRY_EOF) last (find_free_cluster s) })
        loc slot (find_free_cluster s) := by
  rw [allocLoop]

theorem allocLoop_spec :
    ∀ (k : Nat) (s : FSState) (loc : DirLoc) (slot : Nat) (l : List Nat),
    isChain s (entryFirstCluster s loc slot) l →
    l.Nodup →
    k ≤ freeCount s →
    s.meta.total_clusters ≤ 65535 →
    ∃ fresh : List Nat,
      fresh.length = k ∧
      (l ++ fresh).Nodup ∧
      (∀ x ∈ fresh, 2 ≤ x ∧ x < s.meta.total_clusters ∧ s.fat x = 0) ∧
      (allocLoop k s loc slot (lastOr0 l)).meta = s.meta ∧
      isChain (allocLoop k s loc slot (lastOr0 l))
        (entryFirstCluster (allocLoop k s loc slot (lastOr0 l)) loc slot) (l ++ fresh) ∧
      (∀ j, j ∉ l → j ∉ fresh → (allocLoop k s loc slot (lastOr0 l)).fat j = s.fat j) ∧
      (∀ loc2 i, (loc2 ≠ loc ∨ i < 32 * slot + 26 ∨ 32 * slot + 28 ≤ i) →
        dirByte (allocLoop k s loc slot (lastOr0 l)) loc2 i = dirByte s loc2 i) ∧
      freeCount (allocLoop k s loc slot (lastOr0 l)) = freeCount s - k := by
  intro k
  induction k with
  | zero =>
    intro s loc slot l hch hnd _ _
    exact ⟨[], rfl, by simpa using hnd, by simp, rfl, by simpa using hch,
      fun j _ _ => rfl, fun loc2 i _ => rfl, by simp [allocLoop]⟩
  | succ k ih =>
    intro s loc slot l hch hnd hk htc
    have hfc : 0 < freeCount s := by omega
    obtain ⟨hnc2, hnctc, hncfree⟩ := find_free_cluster_spec s hfc
    rw [allocLoop_succ, if_neg (by omega)]
    cases l with
    | nil =>
      have hfirst : entryFirstCluster s loc slot = FAT_ENTRY_EOF := hch
      rw [if_pos (show lastOr0 ([] : List Nat) = 0 from rfl)]
      have hs1meta : ({ s with fat := upd s.fat (find_free_cluster s) FAT_ENTRY_EOF } :
          FSState).meta = s.meta := rfl
      have hm2 : (setEntryFirstCluster
          { s with fat := upd s.fat (find_free_cluster s) FAT_ENTRY_EOF }
          loc slot (find_free_cluster s)).meta = s.meta := by
        rw [meta_setEntryFirstCluster]
      have hf2 : (setEntryFirstCluster
          { s with fat := upd s.fat (find_free_cluster s) FAT_ENTRY_EOF }
          loc slot (find_free_cluster s)).fat = upd s.fat (find_free_cluster s) FAT_ENTRY_EOF := by
        rw [fat_setEntryFirstCluster]
      have hefc2 : entryFirstCluster (setEntryFirstCluster
          { s with fat := upd s.fat (find_free_cluster s) FAT_ENTRY_EOF }
          loc slot (find_free_cluster s)) loc slot = find_free_cluster s := by
        rw [entryFirstCluster_setEntryFirstCluster]
        exact Nat.mod_eq_of_lt (by omega)
      have hch2 : isChain (setEntryFirstCluster
          { s with fat := upd s.fat (find_free_cluster s) FAT_ENTRY_EOF }
          loc slot (find_free_cluster s))
          (entryFirstCluster (setEntryFirstCluster
            { s with fat := upd s.fat (find_free_cluster s) FAT_ENTRY_EOF }
            loc slot (find_free_cluster s)) loc slot) [find_free_cluster s] := by
        rw [hefc2]
        refine ⟨rfl, hnc2, ?_, ?_⟩
        · rw [hm2]; omega
        · show (setEntryFirstCluster _ loc slot _).fat (find_free_cluster s) = FAT_ENTRY_EOF
          rw [hf2]
          simp [upd]
      have hfree2 : freeCount (setEntryFirstCluster
          { s with fat := upd s.fat (find_free_cluster s) FAT_ENTRY_EOF }
          loc slot (find_free_cluster s)) = freeCount s - 1 := by
        have e1 : freeCount (setEntryFirstCluster
            { s with fat := upd s.fat (find_free_cluster s) FAT_ENTRY_EOF }
            loc slot (find_free_cluster s)) =
            freeCount { s with fat := upd s.fat (find_free_cluster s) FAT_ENTRY_EOF } :=
          freeCount_congr_state _ _ (by rw [hm2]) (by rw [hf2]; intro i; rfl)
        rw [e1]
        exact freeCount_fatUpd s _ _ (by decide) hncfree hnc2 hnctc
      obtain ⟨fresh', hlen', hnd', hfr', hm', hch', hfat', hdir', hcnt'⟩ :=
        ih (setEntryFirstCluster
          { s with fat := upd s.fat (find_free_cluster s) FAT_ENTRY_EOF }
          loc slot (find_free_cluster s)) loc slot [find_free_cluster s]
          hch2 (by simp) (by omega) (by rw [hm2]; exact htc)
      have hlast1 : lastOr0 [find_free_cluster s] = find_free_cluster s := rfl
      rw [hlast1] at hm' hch' hfat' hdir' hcnt'
      refine ⟨find_free_cluster s :: fresh', by simpa using hlen', by simpa using hnd',
        ?_, ?_, ?_, ?_, ?_, ?_⟩
      · intro x hx
        rw [List.mem_cons] at hx
        rcases hx with rfl | hx
        · exact ⟨hnc2, hnctc, hncfree⟩
        · obtain ⟨hx2, hx3, hx4⟩ := hfr' x hx
          rw [hm2] at hx3
          rw [hf2] at hx4
          refine ⟨hx2, hx3, ?_⟩
          by_cases hxnc : x = find_free_cluster s
          · rw [hxnc] at hx4; simp [upd] at hx4
            exact absurd hx4 (by decide)
          · simpa [upd, hxnc] using hx4
      · rw [hm', hm2]
      · simpa using hch'
      · intro j _ hj
        rw [List.mem_cons] at hj
        push_neg at hj
        rw [hfat' j (by simpa using hj.1) (fun h => hj.2 h)]
        rw [hf2]
        simp [upd, hj.1]
      · intro loc2 i hcond
        rw [hdir' loc2 i hcond]
        unfold setEntryFirstCluster setEntryByte
        rw [dirByte_setDirByte, dirByte_setDirByte]
        rw [if_neg (by rintro ⟨h1, h2⟩; rcases hcond with h | h | h
            <;> [exact h h1; omega; omega])]
        rw [if_neg (by rintro ⟨h1, h2⟩; rcases hcond with h | h | h
            <;> [exact h h1; omega; omega])]
        rw [dirByte_fatUpdate]
      · rw [hcnt', hfree2]
        omega
    | cons a l' =>
      have hlastmem : lastOr0 (a :: l') ∈ a :: l' := lastOr0_mem _ (by simp)
      have hlast2 : 2 ≤ lastOr0 (a :: l') :=
        (isChain_mem_bounds s _ _ hch _ hlastmem).1
      have hfatlast : s.fat (lastOr0 (a :: l')) = FAT_ENTRY_EOF :=
        isChain_fat_lastOr0 s _ _ hch (by simp)
      have hncnotin : find_free_cluster s ∉ a :: l' := fun hmem =>
        isChain_fat_ne_zero s _ _ hch _ hmem hncfree
      have hlastnc : lastOr0 (a :: l') ≠ find_free_cluster s := fun he =>
        hncnotin (he ▸ hlastmem)
      rw [if_neg (by omega)]
      have hm2 : ({ s with fat := upd (upd s.fat (find_free_cluster s) FAT_ENTRY_EOF) (lastOr0 (a :: l')) (find_free_cluster s) } : FSState).meta = s.meta := rfl
      have hefc2 : entryFirstCluster { s with fat := upd (upd s.fat (find_free_cluster s) FAT_ENTRY_EOF) (lastOr0 (a :: l')) (find_free_cluster s) } loc slot =
          entryFirstCluster s loc slot := entryFirstCluster_fatUpdate s _ loc slot
      have hch2 : isChain { s with fat := upd (upd s.fat (find_free_cluster s) FAT_ENTRY_EOF) (lastOr0 (a :: l')) (find_free_cluster s) }
          (entryFirstCluster { s with fat := upd (upd s.fat (find_free_cluster s) FAT_ENTRY_EOF) (lastOr0 (a :: l')) (find_free_cluster s) } loc slot)
          ((a :: l') ++ [find_free_cluster s]) := by
        rw [hefc2]
        apply isChain_snoc s
          { s with fat := upd (upd s.fat (find_free_cluster s) FAT_ENTRY_EOF) (lastOr0 (a :: l')) (find_free_cluster s) }
          (a :: l') _ (find_free_cluster s) rfl hch hnd
        · intro x hx hxl
          show upd _ _ _ x = s.fat x
          have hxnc : x ≠ find_free_cluster s := fun he => hncnotin (he ▸ hx)
          simp [upd, hxl, hxnc]
        · intro _
          show upd _ _ _ (lastOr0 (a :: l')) = find_free_cluster s
          simp [upd]
        · exact hnc2
        · exact hnctc
        · show upd _ _ _ (find_free_cluster s) = FAT_ENTRY_EOF
          simp [upd, hlastnc.symm, Ne.symm hlastnc]
        · intro h; simp at h
      have hfree2 : freeCount { s with fat := upd (upd s.fat (find_free_cluster s) FAT_ENTRY_EOF) (lastOr0 (a :: l')) (find_free_cluster s) } = freeCount s - 1 := by
        have step1 : freeCount { s with fat := upd s.fat (find_free_cluster s) FAT_ENTRY_EOF }
            = freeCount s - 1 :=
          freeCount_fatUpd s _ _ (by decide) hncfree hnc2 hnctc
        have step2 := freeCount_fatUpd_nonfree
          { s with fat := upd s.fat (find_free_cluster s) FAT_ENTRY_EOF }
          (lastOr0 (a :: l')) (find_free_cluster s) (by omega)
          (by show upd _ _ _ _ ≠ 0
              unfold upd
              rw [if_neg hlastnc, hfatlast]
              decide)
        rw [step2, step1]
      have hnd2 : ((a :: l') ++ [find_free_cluster s]).Nodup := by
        rw [List.nodup_append]
        exact ⟨hnd, List.nodup_singleton _, by
          intro x hx hx2
          rw [List.mem_singleton] at hx2
          exact hncnotin (hx2 ▸ hx)⟩
      obtain ⟨fresh', hlen', hnd', hfr', hm', hch', hfat', hdir', hcnt'⟩ :=
        ih { s with fat := upd (upd s.fat (find_free_cluster s) FAT_ENTRY_EOF) (lastOr0 (a :: l')) (find_free_cluster s) } loc slot
          ((a :: l') ++ [find_free_cluster s]) hch2 hnd2 (by omega) htc
      rw [lastOr0_concat] at hm' hch' hfat' hdir' hcnt'
      refine ⟨find_free_cluster s :: fresh', by simpa using hlen', ?_, ?_, ?_, ?_, ?_, ?_, ?_⟩
      · rw [show (a :: l') ++ find_free_cluster s :: fresh' =
          ((a :: l') ++ [find_free_cluster s]) ++ fresh' by simp]
        exact hnd'
      · intro x hx
        rw [List.mem_cons] at hx
        rcases hx with rfl | hx
        · exact ⟨hnc2, hnctc, hncfree⟩
        · obtain ⟨hx2, hx3, hx4⟩ := hfr' x hx
          refine ⟨hx2, hx3, ?_⟩
          revert hx4
          show upd _ _ _ x = 0 → s.fat x = 0
          intro hx4
          by_cases hxl : x = lastOr0 (a :: l')
          · rw [hxl] at hx4; simp [upd] at hx4; omega
          · by_cases hxn : x = find_free_cluster s
            · rw [hxn] at hx4
              simp [upd, Ne.symm hlastnc] at hx4
              exact absurd hx4 (by decide)
            · simpa [upd, hxl, hxn] using hx4
      · rw [hm']
      · rw [show (a :: l') ++ find_free_cluster s :: fresh' =
          ((a :: l') ++ [find_free_cluster s]) ++ fresh' by simp]
        exact hch'
      · intro j hjl hjf
        rw [List.mem_cons] at hjf
        push_neg at hjf
        rw [hfat' j (by
            rw [List.mem_append, List.mem_singleton]
            rintro (h | h)
            · exact hjl h
            · exact hjf.1 h)
          (fun h => hjf.2 h)]
        show upd _ _ _ j = s.fat j
        have hjlast : j ≠ lastOr0 (a :: l') := fun he => hjl (he ▸ hlastmem)
        simp [upd, hjlast, hjf.1]
      · intro loc2 i hcond
        rw [hdir' loc2 i hcond]
        exact dirByte_fatUpdate s _ loc2 i
      · rw [hcnt', hfree2]
        omega

end Fat16

namespace Fat16
set_option maxRecDepth 40000

theorem getD_mem_of_lt (l : List Nat) (i d : Nat) (h : i < l.length) : l.getD i d ∈ l := by
  rw [List.getD_eq_getElem l d h]
  exact List.getElem_mem h

theorem writeCopyLoop_zero (cs : Nat) (buf : Nat → Nat) (size : Nat) (hcs : 1 ≤ cs) :
    ∀ (C : List Nat) (f : Nat) (s : FSState) (bw : Nat) (c : Nat),
      isChain s c C → C.Nodup →
      bw < size → size ≤ bw + C.length * cs → size ≤ bw + f →
      s.meta.total_clusters ≤ 65535 →
      ∃ s', writeCopyLoop f s cs buf size 0 bw c bw = some (s', size) ∧
        s'.fat = s.fat ∧ s'.meta = s.meta ∧ s'.rootDir = s.rootDir ∧
        (∀ c2, c2 ∉ C → s'.data c2 = s.data c2) ∧
        (∀ i j, i < C.length → j < cs →
          s'.data (C.getD i 0) j =
            if bw + i * cs + j < size then buf (bw + i * cs + j) % 256
            else s.data (C.getD i 0) j) := by
  intro C
  induction C with
  | nil =>
    intro f s bw c _ _ hbw hcap _ _
    simp at hcap
    omega
  | cons x xs ih =>
    intro f s bw c hch hnd hbw hcap hfuel htc
    obtain ⟨rfl, hx2, hx3, hch'⟩ := hch
    rw [List.nodup_cons] at hnd
    cases f with
    | zero => omega
    | succ f' =>
      have hoic : 0 + bw - bw = 0 := by omega
      have htr : copyTr cs size 0 bw bw = if cs > size - bw then size - bw else cs := by
        unfold copyTr
        rw [hoic, Nat.sub_zero]
      rw [writeCopyLoop, if_pos hbw]
      by_cases hterm : bw + copyTr cs size 0 bw bw < size
      · -- continue: tr = cs and bw + cs < size
        have htreq : copyTr cs size 0 bw bw = cs := by
          rw [htr] at hterm ⊢
          by_cases hgt : cs > size - bw
          · rw [if_pos hgt] at hterm; omega
          · rw [if_neg hgt]
        have hbwcs : bw + cs < size := htreq ▸ hterm
        rw [if_pos hterm]
        -- xs nonempty
        cases xs with
        | nil => simp at hcap; omega
        | cons y ys =>
          obtain ⟨rfl, hy2, hy3, hys⟩ := hch'
          have hfatx : (writeSeg s c (0 + bw - bw) buf bw (copyTr cs size 0 bw bw)).fat c
              = s.fat c := by rw [fat_writeSeg]
          rw [if_neg (by rw [hfatx]; unfold FAT_ENTRY_EOF FAT_ENTRY_FREE; omega)]
          rw [hfatx, htreq, hoic]
          -- recurse on the tail
          have hchcons : isChain s (s.fat c) (s.fat c :: ys) := ⟨rfl, hy2, hy3, hys⟩
          have hch2 : isChain (writeSeg s c 0 buf bw cs) (s.fat c) (s.fat c :: ys) := by
            apply isChain_congr s (writeSeg s c 0 buf bw cs) rfl _ _ hchcons
            intro z _
            rw [fat_writeSeg]
          obtain ⟨s', hrun, hfat', hmeta', hroot', hframe', hdata'⟩ :=
            ih f' (writeSeg s c 0 buf bw cs) (bw + cs) (s.fat c) hch2 hnd.2
              hbwcs (by
                simp only [List.length_cons] at hcap ⊢
                rw [Nat.succ_mul] at hcap
                omega) (by omega)
              (by rw [meta_writeSeg]; exact htc)
          refine ⟨s', ?_, ?_, ?_, ?_, ?_, ?_⟩
          · exact hrun
          · rw [hfat', fat_writeSeg]
          · rw [hmeta', meta_writeSeg]
          · rw [hroot', rootDir_writeSeg]
          · intro c2 hc2
            rw [List.mem_cons] at hc2
            push_neg at hc2
            rw [hframe' c2 hc2.2]
            funext j
            rw [data_writeSeg, if_neg (by rintro ⟨h, -⟩; exact hc2.1 h)]
          · intro i j hi hj
            cases i with
            | zero =>
              have hx_notin : c ∉ s.fat c :: ys := hnd.1
              have hfr := hframe' c hx_notin
              show s'.data c j = _
              rw [congrFun hfr j, data_writeSeg, if_pos ⟨rfl, by omega, by omega⟩,
                if_pos (show bw + 0 * cs + j < size by omega)]
              have hidx : bw + (j - 0) = bw + 0 * cs + j := by omega
              rw [hidx]
            | succ i' =>
              show s'.data ((s.fat c :: ys).getD i' 0) j = _
              rw [hdata' i' j (by simpa using hi) hj]
              rw [data_writeSeg]
              have harith : bw + cs + i' * cs + j = bw + (i' + 1) * cs + j := by ring_nf
              by_cases hlt : bw + (i' + 1) * cs + j < size
              · rw [if_pos (by omega), if_pos hlt]
                try rw [harith]
              · rw [if_neg (by omega), if_neg hlt]
                rw [if_neg ?hne]
                case hne =>
                  rintro ⟨heq, -⟩
                  have hmem : (s.fat c :: ys).getD i' 0 ∈ s.fat c :: ys :=
                    getD_mem_of_lt _ _ _ (by simpa using hi)
                  rw [heq] at hmem
                  exact hnd.1 hmem
                rfl
      · -- terminal: bw + tr = size
        have htrle : copyTr cs size 0 bw bw ≤ size - bw := by
          rw [htr]
          by_cases hgt : cs > size - bw
          · rw [if_pos hgt]
          · rw [if_neg hgt]; omega
        have hend : bw + copyTr cs size 0 bw bw = size := by omega
        rw [if_neg hterm]
        refine ⟨writeSeg s c (0 + bw - bw) buf bw (copyTr cs size 0 bw bw), by rw [hend], ?_, ?_, ?_, ?_, ?_⟩
        · rw [fat_writeSeg]
        · rw [meta_writeSeg]
        · rw [rootDir_writeSeg]
        · intro c2 hc2
          rw [List.mem_cons] at hc2
          push_neg at hc2
          funext j
          rw [data_writeSeg, if_neg (by rintro ⟨h, -⟩; exact hc2.1 h)]
        · intro i j hi hj
          cases i with
          | zero =>
            show (writeSeg s c (0 + bw - bw) buf bw (copyTr cs size 0 bw bw)).data c j = _
            rw [data_writeSeg, hoic]
            by_cases hjtr : j < copyTr cs size 0 bw bw
            · rw [if_pos ⟨rfl, by omega, by omega⟩, if_pos (by omega)]
              simp
            · rw [if_neg (by rintro ⟨-, -, h⟩; omega), if_neg (by omega)]
              rfl
          | succ i' =>
            show (writeSeg s c (0 + bw - bw) buf bw (copyTr cs size 0 bw bw)).data
              ((c :: xs).getD (i' + 1) 0) j = _
            rw [data_writeSeg]
            have hgetd : (c :: xs).getD (i' + 1) 0 = xs.getD i' 0 := rfl
            have htr_le_cs : copyTr cs size 0 bw bw ≤ cs := by
              rw [htr]
              by_cases hgt : cs > size - bw
              · rw [if_pos hgt]; omega
              · rw [if_neg hgt]
            have hcsle : cs ≤ (i' + 1) * cs := Nat.le_mul_of_pos_left cs (Nat.succ_pos i')
            rw [if_neg ?hne2, if_neg (by omega)]
            case hne2 =>
              rintro ⟨heq, -⟩
              have hmem : (c :: xs).getD (i' + 1) 0 ∈ xs := by
                show xs.getD i' 0 ∈ xs
                exact getD_mem_of_lt _ _ _ (by simp at hi; omega)
              rw [heq] at hmem
              exact hnd.1 hmem

end Fat16

namespace Fat16
set_option maxRecDepth 40000

theorem readCopyLoop_zero (cs size : Nat) (hcs : 1 ≤ cs) (buf : Nat → Nat) :
    ∀ (C : List Nat) (f : Nat) (s : FSState) (bw : Nat) (c : Nat) (acc : List Nat),
      isChain s c C →
      bw < size → size ≤ bw + C.length * cs → size ≤ bw + f →
      s.meta.total_clusters ≤ 65535 →
      (∀ i j, i < C.length → j < cs → bw + i * cs + j < size →
        s.data (C.getD i 0) j = buf (bw + i * cs + j)) →
      readCopyLoop f s cs size 0 bw c bw acc =
        some (acc ++ (List.range (size - bw)).map (fun k => buf (bw + k)), size) := by
  intro C
  induction C with
  | nil =>
    intro f s bw c acc _ hbw hcap _ _ _
    simp at hcap
    omega
  | cons x xs ih =>
    intro f s bw c acc hch hbw hcap hfuel htc hdata
    obtain ⟨rfl, hx2, hx3, hch'⟩ := hch
    cases f with
    | zero => omega
    | succ f' =>
      have hoic : 0 + bw - bw = 0 := by omega
      have htr : copyTr cs size 0 bw bw = if cs > size - bw then size - bw else cs := by
        unfold copyTr
        rw [hoic, Nat.sub_zero]
      have htrle : copyTr cs size 0 bw bw ≤ size - bw := by
        rw [htr]
        by_cases hgt : cs > size - bw
        · rw [if_pos hgt]
        · rw [if_neg hgt]; omega
      have htrlecs : copyTr cs size 0 bw bw ≤ cs := by
        rw [htr]
        by_cases hgt : cs > size - bw
        · rw [if_pos hgt]; omega
        · rw [if_neg hgt]
      have hseg : readSeg s c (0 + bw - bw) (copyTr cs size 0 bw bw) =
          (List.range (copyTr cs size 0 bw bw)).map (fun k => buf (bw + k)) := by
        rw [hoic]
        unfold readSeg
        apply List.map_congr_left
        intro k hk
        rw [List.mem_range] at hk
        have := hdata 0 k (by simp) (by omega) (by omega)
        simp only [List.getD_cons_zero] at this
        rw [Nat.zero_add, this]
        congr 1
        omega
      rw [readCopyLoop, if_pos hbw]
      by_cases hterm : bw + copyTr cs size 0 bw bw < size
      · have htreq : copyTr cs size 0 bw bw = cs := by
          rw [htr] at hterm ⊢
          by_cases hgt : cs > size - bw
          · rw [if_pos hgt] at hterm; omega
          · rw [if_neg hgt]
        have hbwcs : bw + cs < size := htreq ▸ hterm
        rw [if_pos hterm]
        cases xs with
        | nil => simp at hcap; omega
        | cons y ys =>
          obtain ⟨rfl, hy2, hy3, hys⟩ := hch'
          rw [if_neg (by unfold FAT_ENTRY_EOF FAT_ENTRY_FREE; omega)]
          have hrec := ih f' s (bw + cs) (s.fat c)
            (acc ++ readSeg s c (0 + bw - bw) (copyTr cs size 0 bw bw))
            ⟨rfl, hy2, hy3, hys⟩ hbwcs
            (by simp only [List.length_cons] at hcap ⊢
                rw [Nat.succ_mul] at hcap
                omega)
            (by omega) htc
            (by intro i j hi hj hlt
                have harith : bw + cs + i * cs + j = bw + (i + 1) * cs + j := by ring_nf
                have := hdata (i + 1) j (by simpa using hi) hj (by omega)
                rw [(show ((c :: s.fat c :: ys).getD (i + 1) 0) =
                  ((s.fat c :: ys).getD i 0) from rfl)] at this
                rw [this]
                congr 1
                omega)
          rw [htreq] at hrec hseg ⊢
          rw [hrec]
          have hnorm : size - (bw + cs) = size - bw - cs := by omega
          rw [hseg, List.append_assoc, hnorm]
          have hsplit : size - bw = cs + (size - bw - cs) := by omega
          rw [hsplit, List.range_add, List.map_append, List.map_map]
          rw [(show cs + (size - bw - cs) - cs = size - bw - cs by omega)]
          congr 4
          apply List.map_congr_left
          intro k _
          simp only [Function.comp]
          congr 1
          omega
      · rw [if_neg hterm]
        have hend : bw + copyTr cs size 0 bw bw = size := by omega
        rw [hseg, hend, (show copyTr cs size 0 bw bw = size - bw by omega)]
end Fat16

namespace Fat16
set_option maxRecDepth 40000

theorem findq_congr {α : Type} (p q : α → Bool) :
    ∀ (l : List α), (∀ a ∈ l, p a = q a) → l.find? p = l.find? q := by
  intro l
  induction l with
  | nil => intro _; rfl
  | cons a l' ih =>
    intro h
    rw [List.find?_cons, List.find?_cons, h a (List.mem_cons_self a l')]
    cases q a
    · exact ih (fun x hx => h x (List.mem_cons_of_mem a hx))
    · rfl

theorem find_entry_in_dir_congr (s s' : FSState) (cur : DirLoc) (t : List Nat)
    (hepd : entriesPerDir s' = entriesPerDir s)
    (hb : ∀ i, i % 32 < 12 → dirByte s' cur i = dirByte s cur i) :
    find_entry_in_dir s' cur t = find_entry_in_dir s cur t := by
  unfold find_entry_in_dir
  rw [hepd]
  apply findq_congr
  intro i _
  have hlive : entryLive s' cur i = entryLive s cur i := by
    unfold entryLive entryByte
    rw [hb (32 * i + 0) (by omega)]
  have hname : entryNameBytes s' cur i = entryNameBytes s cur i := by
    unfold entryNameBytes entryByte
    apply List.map_congr_left
    intro j hj
    rw [List.mem_range] at hj
    rw [hb (32 * i + j) (by omega)]
  have hext : entryExtBytes s' cur i = entryExtBytes s cur i := by
    unfold entryExtBytes entryByte
    apply List.map_congr_left
    intro j hj
    rw [List.mem_range] at hj
    rw [hb (32 * i + (8 + j)) (by omega)]
  rw [hlive, hname, hext]

theorem resolveFrom_stable (s s' : FSState) (loc : DirLoc) (slot : Nat)
    (hepd : entriesPerDir s' = entriesPerDir s)
    (hnd : entryAttrs s loc slot &&& ATTR_DIRECTORY = 0) :
    ∀ (ts : List (List Nat)) (t : List Nat) (cur : DirLoc),
      (resolveFrom s cur t ts).1 = .found loc slot →
      (∀ d ∈ (resolveFrom s cur t ts).2, ∀ i,
        (d = loc ∧ 32 * slot + 26 ≤ i ∧ i < 32 * slot + 32) ∨ dirByte s' d i = dirByte s d i) →
      resolveFrom s' cur t ts = resolveFrom s cur t ts := by
  intro ts
  induction ts with
  | nil =>
    intro t cur hres hagree
    have hcur : cur ∈ (resolveFrom s cur t []).2 := by
      rw [resolveFrom]
      rcases find_entry_in_dir s cur t with _ | sl <;> simp
    have hb : ∀ i, i % 32 < 12 → dirByte s' cur i = dirByte s cur i := by
      intro i hi
      rcases hagree cur hcur i with ⟨-, h1, h2⟩ | h
      · omega
      · exact h
    have hfind := find_entry_in_dir_congr s s' cur t hepd hb
    rw [resolveFrom, resolveFrom, hfind]
  | cons t2 ts2 ih =>
    intro t cur hres hagree
    have hcur : cur ∈ (resolveFrom s cur t (t2 :: ts2)).2 := by
      rw [resolveFrom]
      rcases find_entry_in_dir s cur t with _ | sl
      · simp
      · dsimp only
        split
        · simp
        · simp
    have hb : ∀ i, i % 32 < 12 → dirByte s' cur i = dirByte s cur i := by
      intro i hi
      rcases hagree cur hcur i with ⟨-, h1, h2⟩ | h
      · omega
      · exact h
    have hfind := find_entry_in_dir_congr s s' cur t hepd hb
    rw [resolveFrom] at hres
    rcases hfe : find_entry_in_dir s cur t with _ | sl
    · rw [hfe] at hres
      simp at hres
    · rw [hfe] at hres
      dsimp only at hres
      by_cases hdir : entryAttrs s cur sl &&& ATTR_DIRECTORY = 0
      · rw [if_pos hdir] at hres
        simp at hres
      · rw [if_neg hdir] at hres
        dsimp only at hres
        have hslne : ¬(cur = loc ∧ sl = slot) := by
          rintro ⟨rfl, rfl⟩
          exact hdir hnd
        have hattr : entryAttrs s' cur sl = entryAttrs s cur sl := by
          unfold entryAttrs entryByte
          exact hb (32 * sl + 11) (by omega)
        have hfc : entryFirstCluster s' cur sl = entryFirstCluster s cur sl := by
          unfold entryFirstCluster entryByte
          have h26 : dirByte s' cur (32 * sl + 26) = dirByte s cur (32 * sl + 26) := by
            rcases hagree cur hcur (32 * sl + 26) with ⟨he, h1, h2⟩ | h
            · exact absurd ⟨he, by omega⟩ hslne
            · exact h
          have h27 : dirByte s' cur (32 * sl + 27) = dirByte s cur (32 * sl + 27) := by
            rcases hagree cur hcur (32 * sl + 27) with ⟨he, h1, h2⟩ | h
            · exact absurd ⟨he, by omega⟩ hslne
            · exact h
          rw [h26, h27]
        have hvisited : ∀ d ∈ (resolveFrom s (getDirFromCluster (entryFirstCluster s cur sl))
            t2 ts2).2, ∀ i,
            (d = loc ∧ 32 * slot + 26 ≤ i ∧ i < 32 * slot + 32) ∨
              dirByte s' d i = dirByte s d i := by
          intro d hd i
          apply hagree d _ i
          rw [resolveFrom, hfe]
          dsimp only
          rw [if_neg hdir]
          exact List.mem_cons_of_mem cur hd
        have hrec := ih t2 (getDirFromCluster (entryFirstCluster s cur sl)) hres hvisited
        rw [resolveFrom, resolveFrom, hfind, hfe]
        dsimp only
        rw [if_neg (by rw [hattr]; exact hdir), if_neg hdir]
        rw [hfc, hrec]

theorem find_path_entry_stable (s s' : FSState) (p : List Nat) (loc : DirLoc) (slot : Nat)
    (hepd : entriesPerDir s' = entriesPerDir s)
    (hres : (find_path_entry s p).1 = .found loc slot)
    (hnd : entryAttrs s loc slot &&& ATTR_DIRECTORY = 0)
    (hagree : ∀ d ∈ (find_path_entry s p).2, ∀ i,
      (d = loc ∧ 32 * slot + 26 ≤ i ∧ i < 32 * slot + 32) ∨ dirByte s' d i = dirByte s d i) :
    find_path_entry s' p = find_path_entry s p := by
  unfold find_path_entry at hres hagree ⊢
  dsimp only at hres hagree ⊢
  by_cases hp : cstr p = [47]
  · rw [if_pos hp] at hres
    simp at hres
  · rw [if_neg hp] at hres hagree ⊢
    rcases hsp : splitBytes ((cstr p).take 1023) [] with _ | ⟨t, ts⟩
    · rw [hsp] at hres
      simp at hres
    · rw [hsp] at hres hagree
      rw [if_neg hp]
      exact resolveFrom_stable s s' loc slot hepd hnd ts t .root hres hagree

end Fat16

namespace Fat16
set_option maxRecDepth 40000

theorem resolveFrom_found_mem (s : FSState) :
    ∀ (ts : List (List Nat)) (t : List Nat) (cur : DirLoc) (loc : DirLoc) (slot : Nat),
      (resolveFrom s cur t ts).1 = .found loc slot → loc ∈ (resolveFrom s cur t ts).2 := by
  intro ts
  induction ts with
  | nil =>
    intro t cur loc slot h
    rw [resolveFrom] at h ⊢
    rcases hfe : find_entry_in_dir s cur t with _ | sl
    · rw [hfe] at h
      simp at h
    · rw [hfe] at h
      dsimp only at h ⊢
      cases h
      simp
  | cons t2 ts2 ih =>
    intro t cur loc slot h
    rw [resolveFrom] at h ⊢
    rcases hfe : find_entry_in_dir s cur t with _ | sl
    · rw [hfe] at h
      simp at h
    · rw [hfe] at h
      dsimp only at h ⊢
      by_cases hdir : entryAttrs s cur sl &&& ATTR_DIRECTORY = 0
      · rw [if_pos hdir] at h; simp at h
      · rw [if_neg hdir] at h ⊢
        dsimp only at h ⊢
        exact List.mem_cons_of_mem cur (ih t2 _ loc slot h)

theorem find_path_entry_found_mem (s : FSState) (p : List Nat) (loc : DirLoc) (slot : Nat)
    (h : (find_path_entry s p).1 = .found loc slot) : loc ∈ (find_path_entry s p).2 := by
  unfold find_path_entry at h ⊢
  dsimp only at h ⊢
  by_cases hp : cstr p = [47]
  · rw [if_pos hp] at h; simp at h
  · rw [if_neg hp] at h ⊢
    rcases hsp : splitBytes ((cstr p).take 1023) [] with _ | ⟨t, ts⟩
    · rw [hsp] at h
      simp at h
    · rw [hsp] at h
      exact resolveFrom_found_mem s ts t .root loc slot h

theorem data_setDirByte_frame (s : FSState) (loc : DirLoc) (i v c2 : Nat)
    (h : loc ≠ DirLoc.cluster c2) : (setDirByte s loc i v).data c2 = s.data c2 := by
  cases loc with
  | root => rfl
  | cluster D =>
    show (if c2 = D then upd (s.data D) i v else s.data c2) = s.data c2
    rw [if_neg (fun he => h (by rw [he]))]

theorem data_setEntryFileSize_frame (s : FSState) (loc : DirLoc) (slot v c2 : Nat)
    (h : loc ≠ DirLoc.cluster c2) :
    (setEntryFileSize s loc slot v).data c2 = s.data c2 := by
  unfold setEntryFileSize setEntryByte
  rw [data_setDirByte_frame _ _ _ _ _ h, data_setDirByte_frame _ _ _ _ _ h,
    data_setDirByte_frame _ _ _ _ _ h, data_setDirByte_frame _ _ _ _ _ h]

theorem range_map_getD : ∀ (l : List Nat), (List.range l.length).map (fun k => l.getD k 0) = l := by
  intro l
  induction l with
  | nil => rfl
  | cons a l' ih =>
    rw [List.length_cons, List.range_succ_eq_map, List.map_cons, List.map_map]
    congr 1

end Fat16

namespace Fat16
set_option maxRecDepth 40000

/-- C5 (amended): on an image whose FAT geometry is sane (cluster size ≥ 1,
at most 2^16 - 1 clusters), for a path resolving to a non-directory entry
whose cluster chain is intact (acyclic, EOF-terminated) and with enough free
clusters to hold the data, `write(p, data, 0)` returns `len(data)` and a
subsequent `read(p, 0, len(data))` returns exactly `data`.  The original
claim is refuted without the free-space and chain hypotheses
(`C5_counterexample`). -/
theorem C5_write_read_roundtrip (s : FSState) (p : List Nat) (data : List Nat)
    (loc : DirLoc) (slot : Nat) (l : List Nat)
    (hres : (find_path_entry s p).1 = .found loc slot)
    (hnd : entryAttrs s loc slot &&& ATTR_DIRECTORY = 0)
    (hch : isChain s (entryFirstCluster s loc slot) l)
    (hlnd : l.Nodup)
    (hcs : 1 ≤ s.meta.cluster_size)
    (htc : s.meta.total_clusters ≤ 65535)
    (hbytes : ∀ b ∈ data, b < 256)
    (hsize : data.length < 4294967296)
    (hfree : (data.length + s.meta.cluster_size - 1) / s.meta.cluster_size ≤
      l.length + freeCount s)
    (hvis : ∀ D, DirLoc.cluster D ∈ (find_path_entry s p).2 → D ∉ l ∧ s.fat D ≠ 0) :
    ∃ s2 : FSState,
      fat_write s p (fun i => data.getD i 0) data.length 0 = some ((data.length : Int), s2) ∧
      fat_read s2 p data.length 0 = some ((data.length : Int), data) := by
  by_cases hdne : data = []
  · subst hdne
    refine ⟨s, ?_, ?_⟩
    · unfold fat_write resolveTarget
      rw [hres]
      dsimp only
      rw [if_neg (by simp [hnd]),
        if_pos (show (([] : List Nat)).length = 0 from rfl)]
      rfl
    · unfold fat_read resolveTarget
      rw [hres]
      dsimp only
      rw [if_neg (by simp [hnd])]
      by_cases hf : 0 ≥ entryFileSize s loc slot
      · rw [if_pos hf]
        rfl
      · rw [if_neg hf]
        simp
  · have hsz1 : 1 ≤ data.length := by
      cases data with
      | nil => exact absurd rfl hdne
      | cons a t => simp
    have hlen_l : l.length ≤ s.meta.total_clusters - 2 :=
      isChain_length_le s l _ hch hlnd
    have hcnt1 : chainCountLoop 65537 s.fat (entryFirstCluster s loc slot) 0 =
        some l.length := by
      have := chainCountLoop_of_isChain s htc l (entryFirstCluster s loc slot) 0 65537
        hch (by omega)
      simpa using this
    have hreq1 : 1 ≤ (data.length + s.meta.cluster_size - 1) / s.meta.cluster_size := by
      rw [Nat.le_div_iff_mul_le (by omega)]
      omega
    have hreqges : data.length ≤
        ((data.length + s.meta.cluster_size - 1) / s.meta.cluster_size) *
          s.meta.cluster_size := by
      have hdm := Nat.div_add_mod (data.length + s.meta.cluster_size - 1) s.meta.cluster_size
      have hmlt : (data.length + s.meta.cluster_size - 1) % s.meta.cluster_size <
        s.meta.cluster_size := Nat.mod_lt _ (by omega)
      rw [Nat.mul_comm]
      omega
    obtain ⟨fresh, hflen, hCnd, hfr, hm1, hch1, hfat1, hdir1, hfc1⟩ :=
      allocLoop_spec
        ((data.length + s.meta.cluster_size - 1) / s.meta.cluster_size - l.length)
        s loc slot l hch hlnd (by omega) htc
    have hClen : (l ++ fresh).length =
        l.length + ((data.length + s.meta.cluster_size - 1) / s.meta.cluster_size -
          l.length) := by
      rw [List.length_append, hflen]
    have hCreq : (data.length + s.meta.cluster_size - 1) / s.meta.cluster_size ≤
        (l ++ fresh).length := by omega
    have hC1 : 1 ≤ (l ++ fresh).length := by omega
    have hm1tc : (allocLoop ((data.length + s.meta.cluster_size - 1) / s.meta.cluster_size -
        l.length) s loc slot (lastOr0 l)).meta.total_clusters ≤ 65535 := by
      rw [hm1]; exact htc
    have hClen65 : (l ++ fresh).length ≤ s.meta.total_clusters - 2 := by
      have := isChain_length_le _ (l ++ fresh) _ hch1 hCnd
      rw [hm1] at this
      exact this
    have hcnt2 : chainCountLoop 65537
        (allocLoop ((data.length + s.meta.cluster_size - 1) / s.meta.cluster_size -
          l.length) s loc slot (lastOr0 l)).fat
        (entryFirstCluster (allocLoop ((data.length + s.meta.cluster_size - 1) /
          s.meta.cluster_size - l.length) s loc slot (lastOr0 l)) loc slot) 0 =
        some (l ++ fresh).length := by
      have := chainCountLoop_of_isChain _ hm1tc (l ++ fresh) _ 0 65537 hch1 (by omega)
      simpa using this
    have hmwsz : data.length ≤ (l ++ fresh).length * s.meta.cluster_size :=
      le_trans hreqges (Nat.mul_le_mul_right _ hCreq)
    have hmwpos : 1 ≤ (l ++ fresh).length * s.meta.cluster_size := by
      calc 1 = 1 * 1 := rfl
      _ ≤ (l ++ fresh).length * s.meta.cluster_size := Nat.mul_le_mul hC1 hcs
    have hseek : l ≠ [] → seekLastLoop 65537 s.fat (entryFirstCluster s loc slot) =
        some (lastOr0 l) :=
      fun hne => seekLastLoop_of_isChain s htc l _ 65537 hch hne (by omega)
    obtain ⟨s1, hs1def⟩ : ∃ s1,
        allocLoop ((data.length + s.meta.cluster_size - 1) / s.meta.cluster_size - l.length)
          s loc slot (lastOr0 l) = s1 := ⟨_, rfl⟩
    rw [hs1def] at hm1 hch1 hfat1 hdir1 hfc1 hm1tc hcnt2
    obtain ⟨s2', hrun2, hfat2, hmeta2, hroot2, hframe2, hdata2⟩ :=
      writeCopyLoop_zero s.meta.cluster_size (fun i => data.getD i 0) data.length hcs
        (l ++ fresh) (data.length + 1) s1 0 (entryFirstCluster s1 loc slot)
        hch1 hCnd (by omega) (by simpa using hmwsz) (by omega) hm1tc
    obtain ⟨s3, hs3def, hdirS3, hdataS3, hfat3, hmeta3, hfsz3⟩ : ∃ s3,
        (if data.length > entryFileSize s2' loc slot
         then setEntryFileSize s2' loc slot data.length else s2') = s3 ∧
        (∀ d i, (d ≠ loc ∨ i < 32 * slot + 28 ∨ 32 * slot + 32 ≤ i) →
          dirByte s3 d i = dirByte s2' d i) ∧
        (∀ c2, loc ≠ DirLoc.cluster c2 → s3.data c2 = s2'.data c2) ∧
        s3.fat = s2'.fat ∧ s3.meta = s2'.meta ∧
        data.length ≤ entryFileSize s3 loc slot := by
      by_cases hgrow2 : data.length > entryFileSize s2' loc slot
      · refine ⟨setEntryFileSize s2' loc slot data.length, by rw [if_pos hgrow2], ?_, ?_, ?_, ?_, ?_⟩
        · intro d i hcond
          rw [dirByte_setEntryFileSize]
          rw [if_neg (by rintro ⟨rfl, h2⟩; rcases hcond with h | h | h <;>
            first | exact h rfl | omega)]
          rw [if_neg (by rintro ⟨rfl, h2⟩; rcases hcond with h | h | h <;>
            first | exact h rfl | omega)]
          rw [if_neg (by rintro ⟨rfl, h2⟩; rcases hcond with h | h | h <;>
            first | exact h rfl | omega)]
          rw [if_neg (by rintro ⟨rfl, h2⟩; rcases hcond with h | h | h <;>
            first | exact h rfl | omega)]
        · intro c2 hc2
          exact data_setEntryFileSize_frame s2' loc slot data.length c2 hc2
        · rw [fat_setEntryFileSize]
        · rw [meta_setEntryFileSize]
        · rw [entryFileSize_setEntryFileSize]
          rw [Nat.mod_eq_of_lt hsize]
      · refine ⟨s2', by rw [if_neg hgrow2], fun d i _ => rfl, fun c2 _ => rfl, rfl, rfl, by omega⟩
    have hwrite : fat_write s p (fun i => data.getD i 0) data.length 0 =
        some ((data.length : Int), s3) := by
      unfold fat_write resolveTarget
      rw [hres]
      dsimp only
      rw [if_neg (by simp [hnd]), if_neg (by omega)]
      rw [hcnt1]
      dsimp only
      simp only [Nat.zero_add]
      rw [if_neg (show ¬data.length = 0 by omega)]
      have hskip1 : writeSkipLoop 1 s1 s.meta.cluster_size 0
          (entryFirstCluster s1 loc slot) 0 = some (entryFirstCluster s1 loc slot, 0) := by
        show writeSkipLoop (0 + 1) s1 s.meta.cluster_size 0
          (entryFirstCluster s1 loc slot) 0 = _
        rw [writeSkipLoop]
        rw [if_neg (by omega)]
      by_cases hgrow : (data.length + s.meta.cluster_size - 1) / s.meta.cluster_size > l.length
      · rw [if_pos hgrow]
        cases l with
        | nil =>
          have hfe : entryFirstCluster s loc slot = FAT_ENTRY_EOF := hch
          rw [if_neg (by rw [hfe]; simp)]
          rw [(show lastOr0 ([] : List Nat) = 0 from rfl)] at hs1def
          rw [hs1def]
          dsimp only
          rw [hcnt2]
          dsimp only
          rw [if_neg (show ¬0 ≥ (([] : List Nat) ++ fresh).length * s.meta.cluster_size by
            omega)]
          rw [hskip1]
          dsimp only
          rw [hrun2]
          dsimp only
          rw [hs3def]
        | cons a l' =>
          obtain ⟨hfa, ha2, ha3, -⟩ := hch
          rw [if_pos ⟨by rw [hfa]; omega, by rw [hfa]; unfold FAT_ENTRY_EOF; omega⟩]
          rw [show (match seekLastLoop 65537 s.fat (entryFirstCluster s loc slot) with
            | none => none
            | some last => some (allocLoop ((data.length + s.meta.cluster_size - 1) /
                s.meta.cluster_size - (a :: l').length) s loc slot last)) =
            some (allocLoop ((data.length + s.meta.cluster_size - 1) /
              s.meta.cluster_size - (a :: l').length) s loc slot (lastOr0 (a :: l')))
            from by rw [hseek (by simp)]]
          rw [hs1def]
          dsimp only
          rw [hcnt2]
          dsimp only
          rw [if_neg (show ¬0 ≥ ((a :: l') ++ fresh).length * s.meta.cluster_size by omega)]
          rw [hskip1]
          dsimp only
          rw [hrun2]
          dsimp only
          rw [hs3def]
      · rw [if_neg hgrow]
        have hk0 : (data.length + s.meta.cluster_size - 1) / s.meta.cluster_size - l.length
            = 0 := by omega
        have hfnil : fresh = [] := List.length_eq_zero.mp (by omega)
        subst hfnil
        rw [hk0] at hs1def
        rw [(show allocLoop 0 s loc slot (lastOr0 l) = s from rfl)] at hs1def
        rw [List.append_nil] at hcnt2 hmwpos
        rw [← hs1def] at hcnt2 hrun2 hskip1
        dsimp only
        rw [hcnt2]
        dsimp only
        rw [if_neg (show ¬0 ≥ l.length * s.meta.cluster_size by omega)]
        rw [hskip1]
        dsimp only
        rw [hrun2]
        dsimp only
        rw [hs3def]
    have hlocmem : loc ∈ (find_path_entry s p).2 := find_path_entry_found_mem s p loc slot hres
    have hlocnotC : ∀ D, loc = DirLoc.cluster D → D ∉ l ++ fresh := by
      intro D hD hmem
      have hv := hvis D (by rw [← hD]; exact hlocmem)
      rw [List.mem_append] at hmem
      rcases hmem with h | h
      · exact hv.1 h
      · exact hv.2 (hfr D h).2.2
    have hbyte21 : ∀ d, (∀ D, d = DirLoc.cluster D → D ∉ l ++ fresh) →
        ∀ i, dirByte s2' d i = dirByte s1 d i := by
      intro d hd i
      cases d with
      | root =>
        show s2'.rootDir i = s1.rootDir i
        rw [hroot2]
      | cluster D =>
        show s2'.data D i = s1.data D i
        rw [hframe2 D (hd D rfl)]
    have hbyte_s3_s1 : ∀ i, i < 32 * slot + 28 ∨ 32 * slot + 32 ≤ i →
        dirByte s3 loc i = dirByte s1 loc i := by
      intro i hi
      rw [hdirS3 loc i (Or.inr hi), hbyte21 loc hlocnotC i]
    have hattr3 : entryAttrs s3 loc slot = entryAttrs s loc slot := by
      unfold entryAttrs entryByte
      rw [hbyte_s3_s1 (32 * slot + 11) (by omega),
        hdir1 loc (32 * slot + 11) (Or.inr (Or.inl (by omega)))]
    have hfc3 : entryFirstCluster s3 loc slot = entryFirstCluster s1 loc slot := by
      unfold entryFirstCluster entryByte
      rw [hbyte_s3_s1 (32 * slot + 26) (by omega), hbyte_s3_s1 (32 * slot + 27) (by omega)]
    have hm3 : s3.meta = s.meta := by rw [hmeta3, hmeta2, hm1]
    have hagree : ∀ d ∈ (find_path_entry s p).2, ∀ i,
        (d = loc ∧ 32 * slot + 26 ≤ i ∧ i < 32 * slot + 32) ∨
          dirByte s3 d i = dirByte s d i := by
      intro d hd i
      by_cases hexc : d = loc ∧ 32 * slot + 26 ≤ i ∧ i < 32 * slot + 32
      · exact Or.inl hexc
      · right
        have hdC : ∀ D, d = DirLoc.cluster D → D ∉ l ++ fresh := by
          intro D hD hmem
          have hv := hvis D (by rw [← hD]; exact hd)
          rw [List.mem_append] at hmem
          rcases hmem with h | h
          · exact hv.1 h
          · exact hv.2 (hfr D h).2.2
        have h1 : dirByte s3 d i = dirByte s2' d i := by
          apply hdirS3
          by_cases hdl : d = loc
          · right
            subst hdl
            push_neg at hexc
            have := hexc rfl
            omega
          · exact Or.inl hdl
        have h3 : dirByte s1 d i = dirByte s d i := by
          apply hdir1
          by_cases hdl : d = loc
          · right
            subst hdl
            push_neg at hexc
            have := hexc rfl
            omega
          · exact Or.inl hdl
        rw [h1, hbyte21 d hdC i, h3]
    have hstab := find_path_entry_stable s s3 p loc slot
      (by unfold entriesPerDir; rw [hm3]) hres hnd hagree
    have hch3 : isChain s3 (entryFirstCluster s1 loc slot) (l ++ fresh) := by
      apply isChain_congr s1 s3 (by rw [hm3, ← hm1]) _ _ hch1
      intro x _
      rw [hfat3, hfat2]
    have hfirst1 : 2 ≤ entryFirstCluster s1 loc slot ∧
        entryFirstCluster s1 loc slot < s.meta.total_clusters := by
      rcases hCe : l ++ fresh with _ | ⟨hd, tl⟩
      · rw [hCe] at hC1
        simp at hC1
      · rw [hCe] at hch1
        obtain ⟨hfh, h2, h3, -⟩ := hch1
        rw [hm1] at h3
        rw [hfh]
        exact ⟨h2, h3⟩
    have hdata3 : ∀ i j, i < (l ++ fresh).length → j < s.meta.cluster_size →
        0 + i * s.meta.cluster_size + j < data.length →
        s3.data ((l ++ fresh).getD i 0) j = data.getD (0 + i * s.meta.cluster_size + j) 0 := by
      intro i j hi hj hlt
      have hmemC : (l ++ fresh).getD i 0 ∈ l ++ fresh := getD_mem_of_lt _ _ _ hi
      have hlocne : loc ≠ DirLoc.cluster ((l ++ fresh).getD i 0) := by
        intro he
        exact hlocnotC _ he hmemC
      rw [hdataS3 _ hlocne]
      rw [hdata2 i j hi hj, if_pos (by omega)]
      apply Nat.mod_eq_of_lt
      exact hbytes _ (getD_mem_of_lt data _ 0 (by omega))
    have hrskip : readSkipLoop 1 s3 s.meta.cluster_size 0 (entryFirstCluster s1 loc slot) 0
        = some (.atPos (entryFirstCluster s1 loc slot) 0) := by
      show readSkipLoop (0 + 1) _ _ _ _ _ = _
      rw [readSkipLoop, if_neg (by omega)]
    have hrcopy := readCopyLoop_zero s.meta.cluster_size data.length hcs
      (fun k => data.getD k 0) (l ++ fresh) (data.length + 1) s3 0
      (entryFirstCluster s1 loc slot) [] hch3 (by omega) (by simpa using hmwsz)
      (by omega) (by rw [hm3]; exact htc) hdata3
    have hbytesfin : (([] : List Nat)) ++ (List.range (data.length - 0)).map
        (fun k => data.getD (0 + k) 0) = data := by
      rw [List.nil_append, Nat.sub_zero]
      calc (List.range data.length).map (fun k => data.getD (0 + k) 0)
          = (List.range data.length).map (fun k => data.getD k 0) := by
            apply List.map_congr_left
            intro k _
            rw [Nat.zero_add]
        _ = data := range_map_getD data
    have hread : fat_read s3 p data.length 0 = some ((data.length : Int), data) := by
      unfold fat_read resolveTarget
      rw [hstab, hres]
      dsimp only
      rw [if_neg (by rw [hattr3]; simp [hnd])]
      rw [if_neg (show ¬0 ≥ entryFileSize s3 loc slot by omega)]
      simp only [Nat.zero_add]
      rw [if_neg (show ¬data.length > entryFileSize s3 loc slot by omega)]
      rw [if_neg (show ¬data.length = 0 by omega)]
      rw [hfc3]
      rw [if_neg (by unfold FAT_ENTRY_EOF FAT_ENTRY_FREE; omega)]
      rw [hm3]
      rw [hrskip]
      dsimp only
      rw [hrcopy]
      rw [hbytesfin]
    exact ⟨s3, hwrite, hread⟩

end Fat16

namespace Fat16
set_option maxRecDepth 40000

/-- C5 counterexample: on `c5xState`, `/f` is a regular file and
`data = [1]` has length 1 ≤ 2^32 - 1, yet `write("/f", [1], 0)` returns 0
(no free cluster: the extension loop allocates nothing and the orphaned
clamp truncates the copy to zero bytes) and the subsequent read returns
zero bytes, not `[1]`. -/
theorem C5_counterexample :
    (find_path_entry c5xState (strBytes "/f")).1 = .found .root 0 ∧
    entryAttrs c5xState .root 0 &&& ATTR_DIRECTORY = 0 ∧
    (1 : Nat) ≤ 4294967295 ∧
    (fat_write c5xState (strBytes "/f") (fun _ => 1) 1 0).map
      (fun r => (r.1, fat_read r.2 (strBytes "/f") 1 0)) =
      some (0, some (0, [])) ∧
    ([] : List Nat) ≠ [1] := by
  refine ⟨by decide, by decide, by decide, by decide, by decide⟩

/-- Witness for `C5_write_read_roundtrip`: concrete run on `c5State`
(`/f` empty, clusters 2 and 3 free) writing one byte. -/
theorem C5_write_read_roundtrip_witness :
    ∃ s2 : FSState,
      fat_write c5State (strBytes "/f") (fun i => ([1] : List Nat).getD i 0)
        ([1] : List Nat).length 0 = some (((([1] : List Nat).length : Nat) : Int), s2) ∧
      fat_read s2 (strBytes "/f") ([1] : List Nat).length 0 =
        some (((([1] : List Nat).length : Nat) : Int), [1]) :=
  C5_write_read_roundtrip c5State (strBytes "/f") [1] .root 0 []
    (by decide) (by decide)
    ((by decide : entryFirstCluster c5State DirLoc.root 0 = FAT_ENTRY_EOF))
    List.nodup_nil (by decide) (by decide) (by decide) (by decide) (by decide)
    (by
      intro D hD
      rw [(show (find_path_entry c5State (strBytes "/f")).2 = [DirLoc.root] from by decide)] at hD
      simp at hD)


/-- C8: refuted on a reachable state.  After `mkdir("/d")` the dot/dot-dot
invariant holds in the new directory (cluster 2): slot 0 is `.` with
`first_cluster = 2`, slot 1 is `..` with `first_cluster = 0` (root as
parent).  But `rmdir("/d/.")` then succeeds (returns 0): it resolves the
`.` entry itself as the target, frees FAT[2] and tombstones slot 0 of
cluster 2 (first name byte 0xE5), while `/d` remains a live non-root
directory entry in the root with `first_cluster = 2` — a reachable state in
which the directory's cluster holds no live `.` entry at slot 0. -/
theorem C8_rmdir_dot_breaks_directory_invariant :
    (fat_rmdir c8s1 (strBytes "/d/.")).1 = 0 ∧
    entryAttrs c8s2 .root 0 &&& ATTR_DIRECTORY ≠ 0 ∧
    entryLive c8s2 .root 0 = true ∧
    entryFirstCluster c8s2 .root 0 = 2 ∧
    entryByte c8s1 (.cluster 2) 0 0 = 46 ∧
    entryFirstCluster c8s1 (.cluster 2) 0 = 2 ∧
    entryByte c8s1 (.cluster 2) 1 0 = 46 ∧
    entryByte c8s1 (.cluster 2) 1 1 = 46 ∧
    entryFirstCluster c8s1 (.cluster 2) 1 = 0 ∧
    entryByte c8s2 (.cluster 2) 0 0 = 0xE5 ∧
    entryLive c8s2 (.cluster 2) 0 = false ∧
    c8s2.fat 2 = FAT_ENTRY_FREE := by
  refine ⟨by decide, by decide, by decide, by decide, by decide, by decide, by decide,
    by decide, by decide, by decide, by decide, by decide⟩

end Fat16
